import Mathlib

/-!
Shallow embedding of the authentication and session-security core of the
saas-backend-boilerplate repository, together with proofs of the stated
properties.

The embedding follows the TypeScript sources:
* `AuthService` (login with account lockout, token refresh/rotation,
  forgot/reset password) from `src/unnamed/part_024` (the current snapshot,
  lines 390-866);
* `TwoFactorService` (TOTP + backup codes + secret encryption) from
  `src/src/modules/auth/two-factor.service.ts`;
* `AuthController.completeMfaChallenge` from
  `src/src/modules/auth/auth.controller.ts` and `MfaTokenGuard` from
  `src/unnamed/part_025`.

External collaborators (Redis cache, bcrypt, the AES-256-GCM primitive of
Node `crypto`, the TOTP library) are modelled at their interface boundary:
Redis with per-key TTL expiry, bcrypt as a collision-free one-way function,
AES-GCM as a length-preserving keystream cipher with an authentication tag
that detects any change of nonce or ciphertext bytes, and TOTP verification
with the ±1-step window documented at its call site.

Time is a natural number of seconds; `Date.now()` is a `now` parameter.
-/

namespace SaaS

/-! ### Ephemeral cache (CacheService over Redis, src/src/infrastructure/cache/cache.service.ts) -/

/-- One Redis key with its stored (JSON) value, modelled as a `Nat`
(`true` is stored as `1`), and its optional expiry instant. -/
structure CacheEntry where
  key : String
  val : Nat
  expiresAt : Option Nat
  deriving DecidableEq

abbrev Cache := List CacheEntry

/-- Redis keeps a key only until its expiry instant. -/
def cacheLive (now : Nat) (e : CacheEntry) : Bool :=
  match e.expiresAt with
  | none => true
  | some t => now < t

/-- Dead keys are garbage-collected by Redis; every operation sees only live ones. -/
def cachePurge (now : Nat) (c : Cache) : Cache :=
  c.filter (cacheLive now)

/-- `CacheService.get`. -/
def cacheGet (now : Nat) (c : Cache) (k : String) : Option Nat :=
  ((cachePurge now c).find? (fun e => e.key = k)).map (·.val)

/-- `CacheService.set` with a TTL in seconds. -/
def cacheSet (now : Nat) (c : Cache) (k : String) (v : Nat) (ttl : Nat) : Cache :=
  ⟨k, v, some (now + ttl)⟩ :: (cachePurge now c).filter (fun e => e.key ≠ k)

/-- `CacheService.del` of a list of keys. -/
def cacheDel (now : Nat) (c : Cache) (ks : List String) : Cache :=
  (cachePurge now c).filter (fun e => ¬ e.key ∈ ks)

/-- `CacheService.incr`: atomic increment, creating the key (with no TTL) at 1
when absent; returns the post-increment value. -/
def cacheIncr (now : Nat) (c : Cache) (k : String) : Nat × Cache :=
  let c' := cachePurge now c
  match c'.find? (fun e => e.key = k) with
  | some e => (e.val + 1, c'.map (fun e2 => if e2.key = k then { e2 with val := e2.val + 1 } else e2))
  | none => (1, ⟨k, 1, none⟩ :: c')

/-- `CacheService.expire`: set a TTL on an existing key. -/
def cacheExpire (now : Nat) (c : Cache) (k : String) (ttl : Nat) : Cache :=
  (cachePurge now c).map (fun e => if e.key = k then { e with expiresAt := some (now + ttl) } else e)

/-! ### Credential store rows (prisma schema) -/

/-- A `users` row (with its company's `deletedAt` flattened in, as `login`
only reads `user.company.deletedAt`).  Soft-delete timestamps are modelled
as the Booleans the code tests them as. -/
structure UserR where
  id : Nat
  email : String
  passwordHash : String
  isActive : Bool
  deleted : Bool
  companyDeleted : Bool
  twoFactorEnabled : Bool
  twoFactorSecret : Option String
  deriving DecidableEq

/-- A `refresh_tokens` row. -/
structure RefreshRow where
  id : Nat
  token : String
  userId : Nat
  expiresAt : Nat
  revokedAt : Option Nat
  deriving DecidableEq

/-- A `password_reset_tokens` row. -/
structure ResetRow where
  id : Nat
  token : String
  userId : Nat
  expiresAt : Nat
  usedAt : Option Nat
  deriving DecidableEq

/-- A `backup_codes` row. -/
structure BackupRow where
  id : Nat
  userId : Nat
  codeHash : String
  usedAt : Option Nat
  deriving DecidableEq

/-- The mutable state reachable from the auth core: the relational store's
four row sets, the Redis cache, and a counter supplying fresh row ids and
fresh random token values. -/
structure AuthState where
  users : List UserR
  refreshRows : List RefreshRow
  resetRows : List ResetRow
  backupRows : List BackupRow
  cache : Cache
  nextId : Nat
  deriving DecidableEq

/-! ### bcrypt (modelled as a collision-free one-way function) -/

/-- Digest produced by `bcrypt.hash`; the model keeps the hash injective,
which is the interface contract the service relies on. -/
def bcryptHash (pw : String) : String := "$2b$12$" ++ pw

/-- `bcrypt.compare`. -/
def bcryptCompare (pw digest : String) : Bool := bcryptHash pw = digest

/-! ### JWTs (structured claims; the signature is modelled by the type marker,
since distinct signing keys per token class are what keep the classes apart) -/

/-- Token class: normal access token, refresh token, or the short-lived
`type: mfa` challenge token. -/
inductive TokenKind
  | access
  | refresh
  | mfa
  deriving DecidableEq

/-- Signed structured claims. -/
structure Jwt where
  typ : TokenKind
  sub : Nat
  exp : Nat
  deriving DecidableEq

/-- An opaque refresh-token value; `nextId` makes each issued value fresh. -/
def mkRefreshValue (n : Nat) : String := "rt-" ++ toString n

structure TokenPair where
  accessToken : Jwt
  refreshToken : String
  deriving DecidableEq

/-! ### Error taxonomy -/

inductive AuthErr
  | accountLocked
  | invalidCredentials
  | inactiveAccount
  | inactiveCompany
  | invalidToken
  | replayDetected
  | invalidResetToken
  | invalidCode
  | storeFailure
  deriving DecidableEq

/-! ### AuthService (src/unnamed/part_024, lines 390-866) -/

def LOCKOUT_THRESHOLD : Nat := 5

/-- 15 minutes in seconds. -/
def LOCKOUT_TTL : Nat := 15 * 60

def attemptsKey (email : String) : String := "login_attempts:" ++ email

def lockKey (email : String) : String := "login_locked:" ++ email

/-- `AuthService.generateTokenPair` (part_024 lines 737-771): sign the pair,
then persist the refresh-token row with a 7-day absolute expiry.
`failCreate` models the store's `refreshToken.create` call failing; the JWTs
are signed before the row is written, exactly as in the source. -/
def generateTokenPair (failCreate : Bool) (u : UserR) (now : Nat) (st : AuthState) :
    Except AuthErr (TokenPair × AuthState) :=
  let access : Jwt := { typ := .access, sub := u.id, exp := now + 15 * 60 }
  let refreshVal := mkRefreshValue st.nextId
  if failCreate then
    .error .storeFailure
  else
    .ok ({ accessToken := access, refreshToken := refreshVal },
      { st with
        refreshRows := ⟨st.nextId, refreshVal, u.id, now + 7 * 86400, none⟩ :: st.refreshRows
        nextId := st.nextId + 1 })

structure LoginDto where
  email : String
  password : String

/-- Outcome of a `login` call, instrumented with the number of
`bcrypt.compare` invocations the call performed. -/
structure LoginOut where
  res : Except AuthErr TokenPair
  st : AuthState
  hasherCalls : Nat

/-- `AuthService.login` (part_024 lines 551-601): lockout check first, then
user lookup and bcrypt comparison; failures increment the per-email counter
(TTL set on the first failure only), the 5th failure sets the lock flag and
clears the counter; success deletes both keys before the activity checks. -/
def login (dto : LoginDto) (now : Nat) (st : AuthState) : LoginOut :=
  let ak := attemptsKey dto.email
  let lk := lockKey dto.email
  match cacheGet now st.cache lk with
  | some v =>
    if v ≠ 0 then
      { res := .error .accountLocked, st := st, hasherCalls := 0 }
    else
      loginAfterLockCheck dto now st ak lk
  | none => loginAfterLockCheck dto now st ak lk
where
  /-- Body of `login` after the lockout gate. -/
  loginAfterLockCheck (dto : LoginDto) (now : Nat) (st : AuthState) (ak lk : String) : LoginOut :=
    match st.users.find? (fun u => u.email = dto.email) with
    | none =>
      -- unknown email: `bcrypt.compare` is short-circuited away
      { res := .error .invalidCredentials
        st := { st with cache := recordFailure now st.cache ak lk }
        hasherCalls := 0 }
    | some u =>
      if bcryptCompare dto.password u.passwordHash then
        -- successful credential check: clear both lockout keys
        let st := { st with cache := cacheDel now st.cache [ak, lk] }
        if ¬ u.isActive ∨ u.deleted then
          { res := .error .inactiveAccount, st := st, hasherCalls := 1 }
        else if u.companyDeleted then
          { res := .error .inactiveCompany, st := st, hasherCalls := 1 }
        else
          match generateTokenPair false u now st with
          | .ok (tp, st') => { res := .ok tp, st := st', hasherCalls := 1 }
          | .error e => { res := .error e, st := st, hasherCalls := 1 }
      else
        { res := .error .invalidCredentials
          st := { st with cache := recordFailure now st.cache ak lk }
          hasherCalls := 1 }
  /-- Failed-attempt bookkeeping inside `login`: increment, set the window
  TTL when the counter was created, lock and clear on reaching the threshold. -/
  recordFailure (now : Nat) (c : Cache) (ak lk : String) : Cache :=
    let (attempts, c1) := cacheIncr now c ak
    let c2 := if attempts = 1 then cacheExpire now c1 ak LOCKOUT_TTL else c1
    if attempts ≥ LOCKOUT_THRESHOLD then
      cacheDel now (cacheSet now c2 lk 1 LOCKOUT_TTL) [ak]
    else
      c2

/-- `AuthService.refreshTokens` (part_024 lines 699-728): look the presented
token up; reject on miss or owner mismatch; treat a revoked or expired row as
a replay signal (revoke every row of the user, fail); otherwise revoke the
presented row and then issue a fresh pair — two separate store writes, with
no transaction around them. -/
def refreshTokens (failCreate : Bool) (userId : Nat) (refreshToken : String) (now : Nat)
    (st : AuthState) : Except AuthErr TokenPair × AuthState :=
  match st.refreshRows.find? (fun r => r.token = refreshToken) with
  | none => (.error .invalidToken, st)
  | some row =>
    if row.userId ≠ userId then
      (.error .invalidToken, st)
    else if row.revokedAt.isSome ∨ row.expiresAt < now then
      (.error .replayDetected,
        { st with refreshRows :=
            st.refreshRows.map (fun r => if r.userId = userId then { r with revokedAt := some now } else r) })
    else
      let st1 := { st with refreshRows :=
                    st.refreshRows.map (fun r => if r.id = row.id then { r with revokedAt := some now } else r) }
      match st.users.find? (fun u => u.id = row.userId) with
      | none => (.error .invalidToken, st1)
      | some u =>
        match generateTokenPair failCreate u now st1 with
        | .ok (tp, st2) => (.ok tp, st2)
        | .error e => (.error e, st1)

/-- `AuthService.forgotPassword` (part_024 lines 773-813): silently succeed on
unknown/inactive email; otherwise mark every unused reset row of the user
used, then create one fresh row with a 1-hour expiry.  `tokenVal` stands for
the `randomBytes(32).toString('hex')` value. -/
def forgotPassword (tokenVal : String) (email : String) (now : Nat) (st : AuthState) : AuthState :=
  match st.users.find? (fun u => u.email = email) with
  | none => st
  | some u =>
    if ¬ u.isActive ∨ u.deleted then st
    else
      { st with
        resetRows := ⟨st.nextId, tokenVal, u.id, now + 3600, none⟩ ::
          st.resetRows.map (fun r =>
            if r.userId = u.id ∧ r.usedAt = none then { r with usedAt := some now } else r)
        nextId := st.nextId + 1 }

/-- `AuthService.resetPassword` (part_024 lines 815-865): reject a missing,
used, or expired row; otherwise — in one transaction — set the new password
hash, mark the row used, and revoke every refresh token of the user. -/
def resetPassword (tok newPassword : String) (now : Nat) (st : AuthState) :
    Except AuthErr Unit × AuthState :=
  match st.resetRows.find? (fun r => r.token = tok) with
  | none => (.error .invalidResetToken, st)
  | some r =>
    if r.usedAt.isSome ∨ r.expiresAt < now then
      (.error .invalidResetToken, st)
    else
      (.ok (),
        { st with
          users := st.users.map (fun u =>
            if u.id = r.userId then { u with passwordHash := bcryptHash newPassword } else u)
          resetRows := st.resetRows.map (fun r2 =>
            if r2.id = r.id then { r2 with usedAt := some now } else r2)
          refreshRows := st.refreshRows.map (fun rt =>
            if rt.userId = r.userId then { rt with revokedAt := some now } else rt) })

/-! ### Secret cipher (`encrypt`/`decrypt` in two-factor.service.ts, lines 40-64)

The service-level code — the `ivHex:authTagHex:ciphertextHex` wire format,
the `split(':')`/three-part check, and hex (de)coding — is embedded
directly.  The AES-256-GCM primitive of Node `crypto` is modelled at its
interface: a length-preserving keystream cipher (CTR-style XOR, so
decryption inverts encryption) and an authentication tag that is a function
of key, nonce and ciphertext which single-byte changes always alter (the
GHASH tag of GCM has this property for any key with a nonzero hash subkey).
Hex decoding accepts both letter cases, as Node `Buffer.from(s, "hex")`
does. -/

/-- Lowercase hex digit for a nibble, as produced by `Buffer.toString("hex")`. -/
def hexDigitChar (n : Nat) : Char :=
  if n < 10 then Char.ofNat (48 + n) else Char.ofNat (87 + n)

/-- Hex encoding of a byte list (two chars per byte). -/
def hexEnc : List Nat → List Char
  | [] => []
  | b :: bs => hexDigitChar (b / 16) :: hexDigitChar (b % 16) :: hexEnc bs

/-- Value of one hex digit; both letter cases accepted, as in Node. -/
def hexVal (c : Char) : Option Nat :=
  let n := c.toNat
  if 48 ≤ n ∧ n ≤ 57 then some (n - 48)
  else if 97 ≤ n ∧ n ≤ 102 then some (n - 87)
  else if 65 ≤ n ∧ n ≤ 70 then some (n - 55)
  else none

/-- Hex decoding of a char list; fails on an odd length or a non-hex char. -/
def hexDec : List Char → Option (List Nat)
  | [] => some []
  | [_] => none
  | c1 :: c2 :: rest =>
    match hexVal c1, hexVal c2, hexDec rest with
    | some h, some l, some bs => some ((16 * h + l) :: bs)
    | _, _, _ => none

/-- Keystream byte `i` of the modelled AES-CTR stream for a key and nonce. -/
def ksByte (key ivN i : Nat) : Nat := (key + 7 * ivN + 13 * i + 1) % 256

/-- Nonce bytes folded to a number, to feed the keystream model. -/
def bytesToNat (bs : List Nat) : Nat := bs.foldl (fun a b => a * 256 + b) 0

/-- CTR-mode XOR of a byte list with the keystream, starting at index `i`;
self-inverse, as XOR-based stream encryption is. -/
def ctrXor (key ivN : Nat) : Nat → List Nat → List Nat
  | _, [] => []
  | i, b :: bs => (b ^^^ ksByte key ivN i) :: ctrXor key ivN (i + 1) bs

/-- Position-weighted checksum underlying the modelled authentication tag;
any change of a single byte value (lengths fixed) changes it. -/
def wsum : Nat → List Nat → Nat
  | _, [] => 0
  | i, b :: bs => (i + 1) * (b + 1) + wsum (i + 1) bs

/-- Authentication tag over key, nonce and ciphertext, as a number.  The
nonce and ciphertext lengths are mixed in (as GCM's GHASH mixes in the bit
lengths), making the tag distinguish any two distinct (nonce, ciphertext)
pairs that differ in one byte or in length. -/
def tagNat (key : Nat) (iv ct : List Nat) : Nat :=
  Nat.pair key (Nat.pair iv.length (Nat.pair ct.length (wsum 0 (iv ++ ct))))

/-- Little-endian base-256 bytes of a number (structural recursion on a
fuel bound so that the kernel can evaluate it). -/
def natToBytesAux : Nat → Nat → List Nat
  | 0, _ => []
  | fuel + 1, n => if n = 0 then [] else n % 256 :: natToBytesAux fuel (n / 256)

/-- Little-endian base-256 bytes of a number. -/
def natToBytes (n : Nat) : List Nat := natToBytesAux n n

/-- UTF-8 bytes of an (ASCII) plaintext string. -/
def strBytes (s : String) : List Nat := s.data.map Char.toNat

/-- Chars of a decrypted byte list. -/
def bytesToStr (bs : List Nat) : String := String.mk (bs.map Char.ofNat)

/-- The `encrypt` helper (two-factor.service.ts lines 40-49): encrypt under a
fresh nonce `iv` and return `ivHex:authTagHex:ciphertextHex`. -/
def encryptAesGcm (key : Nat) (iv : List Nat) (text : String) : String :=
  let ct := ctrXor key (bytesToNat iv) 0 (strBytes text)
  let tag := natToBytes (tagNat key iv ct)
  String.mk (hexEnc iv ++ (':' :: (hexEnc tag ++ (':' :: hexEnc ct))))

/-- Split a char list at every colon, as `String.prototype.split(":")` does. -/
def splitColon : List Char → List (List Char)
  | [] => [[]]
  | c :: rest =>
    let r := splitColon rest
    if c = ':' then [] :: r
    else (c :: r.headI) :: r.tail

/-- The `decrypt` helper (two-factor.service.ts lines 54-64): reject unless
the value splits into exactly three parts; decode them; recompute and check
the authentication tag (fail closed on mismatch); then decipher.  `none`
models a thrown error. -/
def decryptAesGcm (key : Nat) (s : String) : Option String :=
  match splitColon s.data with
  | [ivH, tagH, ctH] =>
    match hexDec ivH, hexDec tagH, hexDec ctH with
    | some iv, some tag, some ct =>
      if tag = natToBytes (tagNat key iv ct) then
        some (bytesToStr (ctrXor key (bytesToNat iv) 0 ct))
      else
        none
    | _, _, _ => none
  | _ => none

/-- Flip bit `k` of the char at the split point: the string
`l ++ c :: r` becomes `l ++ c' :: r` with `c'` the bit-flipped char. -/
def flipChar (c : Char) (k : Nat) : Char := Char.ofNat (c.toNat ^^^ 2 ^ k)

/-! ### TOTP (otplib `verifySync`, modelled at its interface)

The library is external; its call site in `TwoFactorService.verifyCode`
documents the behaviour being relied on: "±1 window = ±30 s clock
tolerance".  The model generates a 6-digit code per 30-second step from the
secret and accepts a submitted token iff it equals the code of the current,
previous or next step. -/

/-- Numeric TOTP value for a secret and time step (any deterministic
function of both works for the model). -/
def totpNat (secret : String) (step : Nat) : Nat :=
  (wsum 0 (strBytes secret) + 7919 * step + 3) % 1000000

/-- Decimal digit char. -/
def digitChar (n : Nat) : Char := Char.ofNat (48 + n % 10)

/-- The 6-character TOTP code of a secret at a time step. -/
def totpString (secret : String) (step : Nat) : String :=
  let n := totpNat secret step
  String.mk [digitChar (n / 100000), digitChar (n / 10000), digitChar (n / 1000),
    digitChar (n / 100), digitChar (n / 10), digitChar n]

/-- TOTP time step of an instant (30-second steps). -/
def totpStep (now : Nat) : Nat := now / 30

/-- otplib `verifySync` with the ±1-step window in force at the call sites. -/
def totpVerify (token : String) (secret : String) (now : Nat) : Bool :=
  token = totpString secret (totpStep now - 1) ∨
  token = totpString secret (totpStep now) ∨
  token = totpString secret (totpStep now + 1)

/-! ### TwoFactorService (src/src/modules/auth/two-factor.service.ts) -/

/-- SHA-256, modelled as a collision-free one-way function. -/
def sha256 (s : String) : String := "sha256$" ++ s

/-- `hashBackupCode` (lines 70-74): SHA-256 of `userId:normalisedCode`. -/
def hashBackupCode (userId : Nat) (normalisedCode : String) : String :=
  sha256 (toString userId ++ ":" ++ normalisedCode)

/-- `normaliseCode` (lines 77-79): strip dashes, uppercase. -/
def normaliseCode (code : String) : String :=
  String.mk ((code.data.filter (fun c => c ≠ '-')).map Char.toUpper)

/-- `encryptSecret` (lines 276-279): pass the seed through unchanged when no
key is configured, else encrypt it under a fresh nonce. -/
def encryptSecret (encKey : Option Nat) (iv : List Nat) (secret : String) : String :=
  match encKey with
  | none => secret
  | some k => encryptAesGcm k iv secret

/-- `decryptSecret` (lines 281-286): pass through when no key is configured
or when the stored value has no colon (a row stored before encryption was
configured); otherwise decrypt, propagating failure (`none` models the
thrown error). -/
def decryptSecret (encKey : Option Nat) (stored : String) : Option String :=
  match encKey with
  | none => some stored
  | some k =>
    if stored.data.contains ':' then decryptAesGcm k stored else some stored

/-- `consumeBackupCode` (lines 310-328): find one unused row of the user
whose hash matches, mark it used. -/
def consumeBackupCode (userId : Nat) (inputCode : String) (now : Nat) (st : AuthState) :
    Bool × AuthState :=
  let h := hashBackupCode userId (normaliseCode inputCode)
  match st.backupRows.find? (fun r => r.userId = userId ∧ r.codeHash = h ∧ r.usedAt = none) with
  | none => (false, st)
  | some r =>
    (true, { st with backupRows :=
              st.backupRows.map (fun r2 => if r2.id = r.id then { r2 with usedAt := some now } else r2) })

/-- `TwoFactorService.verifyCode` (lines 197-212): false unless 2FA is
enabled with a stored seed; then TOTP first (±1 step), then backup-code
consumption.  The outer `Except` models the exception a failing seed
decryption throws. -/
def verifyCode (encKey : Option Nat) (userId : Nat) (code : String) (now : Nat)
    (st : AuthState) : Except Unit (Bool × AuthState) :=
  match st.users.find? (fun u => u.id = userId) with
  | none => .ok (false, st)
  | some u =>
    if u.twoFactorEnabled then
      match u.twoFactorSecret with
      | none => .ok (false, st)
      | some stored =>
        match decryptSecret encKey stored with
        | none => .error ()
        | some secret =>
          if totpVerify code secret now then .ok (true, st)
          else .ok (consumeBackupCode userId code now st)
    else .ok (false, st)

/-! ### MFA-gated login (spec §4 control flow) and the 2FA challenge endpoint -/

inductive LoginResult
  | session (tokens : TokenPair)
  | mfaChallenge (mfaToken : Jwt)
  deriving DecidableEq

structure LoginSpecOut where
  res : Except AuthErr LoginResult
  st : AuthState
  hasherCalls : Nat

/-- Modelled from the spec: the final `AuthService.login` with the MFA
branch is absent from the repository sources (which hold only earlier
snapshots of `auth.service.ts`); its caller `auth.controller.ts` and the
`MfaTokenGuard` document that, when the identity has 2FA enabled, `login`
returns a short-lived JWT with a `type: "mfa"` claim instead of a session.
This definition is the lockout/credential flow embedded in `login` above,
with the spec's MFA branch inserted after the activity checks: issue the
challenge token and do not create (or persist) a session token pair. -/
def loginSpec (dto : LoginDto) (now : Nat) (st : AuthState) : LoginSpecOut :=
  let ak := attemptsKey dto.email
  let lk := lockKey dto.email
  match cacheGet now st.cache lk with
  | some v =>
    if v ≠ 0 then
      { res := .error .accountLocked, st := st, hasherCalls := 0 }
    else
      loginSpecAfterLockCheck dto now st ak lk
  | none => loginSpecAfterLockCheck dto now st ak lk
where
  /-- Modelled from the spec: body after the lockout gate, with the MFA
  branch before session issuance. -/
  loginSpecAfterLockCheck (dto : LoginDto) (now : Nat) (st : AuthState) (ak lk : String) :
      LoginSpecOut :=
    match st.users.find? (fun u => u.email = dto.email) with
    | none =>
      { res := .error .invalidCredentials
        st := { st with cache := login.recordFailure now st.cache ak lk }
        hasherCalls := 0 }
    | some u =>
      if bcryptCompare dto.password u.passwordHash then
        let st := { st with cache := cacheDel now st.cache [ak, lk] }
        if ¬ u.isActive ∨ u.deleted then
          { res := .error .inactiveAccount, st := st, hasherCalls := 1 }
        else if u.companyDeleted then
          { res := .error .inactiveCompany, st := st, hasherCalls := 1 }
        else if u.twoFactorEnabled then
          -- short-lived (5 minute) challenge token; no session, nothing persisted
          { res := .ok (.mfaChallenge { typ := .mfa, sub := u.id, exp := now + 5 * 60 })
            st := st, hasherCalls := 1 }
        else
          match generateTokenPair false u now st with
          | .ok (tp, st') => { res := .ok (.session tp), st := st', hasherCalls := 1 }
          | .error e => { res := .error e, st := st, hasherCalls := 1 }
      else
        { res := .error .invalidCredentials
          st := { st with cache := login.recordFailure now st.cache ak lk }
          hasherCalls := 1 }

/-- Modelled from the spec: `AuthService.createSessionForUser`, called by
`AuthController.completeMfaChallenge` but absent from the repository
sources — load the user and issue a normal token pair. -/
def createSessionForUser (userId : Nat) (now : Nat) (st : AuthState) :
    Except AuthErr (TokenPair × AuthState) :=
  match st.users.find? (fun u => u.id = userId) with
  | none => .error .invalidToken
  | some u => generateTokenPair false u now st

/-- `AuthController.completeMfaChallenge` (auth.controller.ts lines
199-209): the `MfaTokenGuard` has already verified the bearer token's
`type: "mfa"` claim and extracted `userId`; verify the submitted code and
only then create the real session. -/
def completeMfaChallenge (encKey : Option Nat) (userId : Nat) (code : String) (now : Nat)
    (st : AuthState) : Except AuthErr (TokenPair × AuthState) :=
  match verifyCode encKey userId code now st with
  | .error () => .error .invalidCode
  | .ok (false, _) => .error .invalidCode
  | .ok (true, st1) => createSessionForUser userId now st1

/-- Equality on `Except` results is decidable componentwise (used by the
concrete witnesses below). -/
instance exceptDecEq {ε α : Type} [DecidableEq ε] [DecidableEq α] :
    DecidableEq (Except ε α) := fun x y =>
  match x, y with
  | .ok a, .ok b =>
    if h : a = b then isTrue (by rw [h]) else isFalse (by simp [h])
  | .error a, .error b =>
    if h : a = b then isTrue (by rw [h]) else isFalse (by simp [h])
  | .ok _, .error _ => isFalse (by simp)
  | .error _, .ok _ => isFalse (by simp)

/-! ### Concrete fixtures used by the witnesses -/

def exUser : UserR := ⟨1, "a@b.c", bcryptHash "pw", true, false, false, false, none⟩

def exRow : RefreshRow := ⟨10, "tok", 1, 1000, none⟩

def exSt : AuthState := ⟨[exUser], [exRow], [], [], [], 11⟩

def exRowRevoked : RefreshRow := ⟨10, "tok", 1, 1000, some 3⟩

def exStRevoked : AuthState := ⟨[exUser], [exRowRevoked], [], [], [], 11⟩

def lockedSt : AuthState := ⟨[], [], [], [], [⟨"login_locked:a@b.c", 1, some 20⟩], 0⟩

def forgotSt : AuthState := ⟨[exUser], [], [⟨7, "old", 1, 2000, none⟩], [], [], 11⟩

/-- An identity with 2FA enabled and a plaintext-stored seed. -/
def mfaUser : UserR := ⟨1, "a@b.c", bcryptHash "pw", true, false, false, true, some "SEED"⟩

def mfaSt : AuthState := ⟨[mfaUser], [], [], [], [], 20⟩

/-- One unused backup-code row matching the code `AAAA-BBBB-CCCC`. -/
def exBackupRow : BackupRow := ⟨5, 1, hashBackupCode 1 (normaliseCode "AAAA-BBBB-CCCC"), none⟩

def backupSt : AuthState := ⟨[mfaUser], [], [], [exBackupRow], [], 30⟩

/-- State with one backup-code row (by row id) marked used, exactly as
`consumeBackupCode` writes it. -/
def markUsed (st : AuthState) (rid now : Nat) : AuthState :=
  { st with backupRows :=
              st.backupRows.map
                (fun r2 => if r2.id = rid then { r2 with usedAt := some now } else r2) }

/-- A concrete ciphertext whose nonce hex contains the letter `a` (byte `0x0a`). -/
def cexS : String := encryptAesGcm 0 [0, 0, 0, 0, 0, 0, 0, 0, 0, 0, 0, 10] "A"

/-- The same ciphertext with bit 5 of the char at index 23 (the `a`) flipped. -/
def cexFlip : String := String.mk (cexS.data.take 23 ++ flipChar 'a' 5 :: cexS.data.drop 24)

/-! ## Theorems -/

/-! ### Generic helper lemmas -/

theorem mass_revoke_mem (l : List RefreshRow) (uid t : Nat) :
    ∀ r ∈ l.map (fun r => if r.userId = uid then { r with revokedAt := some t } else r),
      r.userId = uid → r.revokedAt = some t := by
  intro r hr hu
  obtain ⟨a, _, rfl⟩ := List.mem_map.1 hr
  by_cases h : a.userId = uid
  · simp only [if_pos h]
  · rw [if_neg h] at hu
    exact absurd hu h

theorem find?_token_map (l : List RefreshRow) (tok : String) (f : RefreshRow → RefreshRow)
    (hf : ∀ r, (f r).token = r.token) :
    (l.map f).find? (fun r => r.token = tok) = (l.find? (fun r => r.token = tok)).map f := by
  rw [List.find?_map]
  have hfun : ((fun r => decide (r.token = tok)) ∘ f) = (fun r => decide (r.token = tok)) := by
    funext r
    simp [Function.comp, hf]
  rw [hfun]

/-! ### The replay branch of `refreshTokens` -/

theorem replay_branch (fc : Bool) (userId : Nat) (tok : String) (now : Nat) (st : AuthState)
    (row : RefreshRow)
    (hfind : st.refreshRows.find? (fun r => r.token = tok) = some row)
    (hown : row.userId = userId)
    (hsig : row.revokedAt.isSome ∨ row.expiresAt < now) :
    (refreshTokens fc userId tok now st).1 = .error .replayDetected ∧
    ∀ r ∈ (refreshTokens fc userId tok now st).2.refreshRows,
      r.userId = userId → r.revokedAt = some now := by
  have hne : ¬ row.userId ≠ userId := by simp [hown]
  simp only [refreshTokens, hfind]
  rw [if_neg hne, if_pos hsig]
  exact ⟨rfl, mass_revoke_mem st.refreshRows userId now⟩

theorem refresh_success_inv (userId : Nat) (tok : String) (now : Nat) (st : AuthState)
    (tp : TokenPair) (st1 : AuthState)
    (h : refreshTokens false userId tok now st = (.ok tp, st1)) :
    ∃ row u, st.refreshRows.find? (fun r => r.token = tok) = some row ∧
      row.userId = userId ∧ row.revokedAt = none ∧ ¬ row.expiresAt < now ∧
      st.users.find? (fun u2 => u2.id = row.userId) = some u ∧
      st1.refreshRows = ⟨st.nextId, mkRefreshValue st.nextId, u.id, now + 7 * 86400, none⟩ ::
        st.refreshRows.map (fun r => if r.id = row.id then { r with revokedAt := some now } else r) := by
  cases hfind : st.refreshRows.find? (fun r => r.token = tok) with
  | none =>
    simp only [refreshTokens, hfind] at h
    exact absurd (congrArg Prod.fst h) (by simp)
  | some row =>
    simp only [refreshTokens, hfind] at h
    by_cases hown : row.userId = userId
    · rw [if_neg (by simp [hown])] at h
      by_cases hsig : row.revokedAt.isSome ∨ row.expiresAt < now
      · rw [if_pos hsig] at h
        exact absurd (congrArg Prod.fst h) (by simp)
      · rw [if_neg hsig] at h
        push_neg at hsig
        cases huser : st.users.find? (fun u2 => u2.id = row.userId) with
        | none =>
          rw [huser] at h
          exact absurd (congrArg Prod.fst h) (by simp)
        | some u =>
          rw [huser] at h
          simp only [generateTokenPair, Bool.false_eq_true, if_false] at h
          refine ⟨row, u, rfl, hown, ?_, Nat.not_lt.mpr hsig.2, huser, ?_⟩
          · cases hr : row.revokedAt with
            | none => rfl
            | some t =>
              rw [hr] at hsig
              simp at hsig
          · have h2 := congrArg Prod.snd h
            simp only at h2
            rw [← h2]
    · rw [if_pos (by simp [hown])] at h
      exact absurd (congrArg Prod.fst h) (by simp)

/-- C9: a login request on a locked identity is rejected before any password
comparison — the adaptive hash (bcrypt) is invoked zero times and the state
is untouched. -/
theorem locked_login_skips_hasher (dto : LoginDto) (now : Nat) (st : AuthState) (v : Nat)
    (hlock : cacheGet now st.cache (lockKey dto.email) = some v) (hv : v ≠ 0) :
    (login dto now st).res = .error .accountLocked ∧
    (login dto now st).hasherCalls = 0 ∧ (login dto now st).st = st := by
  simp [login, hlock, hv]

theorem locked_login_skips_hasher_witness :
    (login ⟨"a@b.c", "pw"⟩ 10 lockedSt).res = .error .accountLocked ∧
    (login ⟨"a@b.c", "pw"⟩ 10 lockedSt).hasherCalls = 0 ∧
    (login ⟨"a@b.c", "pw"⟩ 10 lockedSt).st = lockedSt :=
  locked_login_skips_hasher ⟨"a@b.c", "pw"⟩ 10 lockedSt 1 (by decide) (by decide)

/-- C5 counterexample: rotation is not one atomic unit.  On a concrete state
holding one valid refresh token, a `refreshTokens` call whose
`refreshToken.create` fails returns an error while the presented token's
revocation has already been persisted — the state is changed on error,
contradicting the claim. -/
theorem refresh_rotation_atomicity_cex :
    (refreshTokens true 1 "tok" 5 exSt).1 = .error .storeFailure ∧
    (refreshTokens true 1 "tok" 5 exSt).2 ≠ exSt ∧
    (refreshTokens true 1 "tok" 5 exSt).2.refreshRows = [⟨10, "tok", 1, 1000, some 5⟩] := by
  decide

/-- C5 amended: for every valid presented refresh token, if persisting the
new pair fails the call returns an error, the presented token's revocation
has taken effect, and no new row was created — the revocation and the
issuance are two separate store writes, not a transaction. -/
theorem refresh_rotation_failure_keeps_revocation
    (userId : Nat) (tok : String) (now : Nat) (st : AuthState) (row : RefreshRow) (u : UserR)
    (hfind : st.refreshRows.find? (fun r => r.token = tok) = some row)
    (hown : row.userId = userId)
    (hrev : row.revokedAt = none)
    (hexp : ¬ row.expiresAt < now)
    (huser : st.users.find? (fun u2 => u2.id = row.userId) = some u) :
    (refreshTokens true userId tok now st).1 = .error .storeFailure ∧
    (refreshTokens true userId tok now st).2.refreshRows =
      st.refreshRows.map (fun r => if r.id = row.id then { r with revokedAt := some now } else r) := by
  have hne : ¬ row.userId ≠ userId := by simp [hown]
  simp only [refreshTokens, hfind]
  rw [if_neg hne, if_neg (by simp [hrev, hexp])]
  simp [huser, generateTokenPair]

theorem refresh_rotation_failure_keeps_revocation_witness :
    (refreshTokens true 1 "tok" 5 exSt).1 = .error .storeFailure ∧
    (refreshTokens true 1 "tok" 5 exSt).2.refreshRows =
      exSt.refreshRows.map (fun r => if r.id = exRow.id then { r with revokedAt := some 5 } else r) :=
  refresh_rotation_failure_keeps_revocation 1 "tok" 5 exSt exRow exUser (by decide) (by decide)
    (by decide) (by decide) (by decide)

/-- C2: (i) presenting a refresh token whose stored row is revoked or past
its expiry fails with replay detection and revokes every refresh token of
that identity, not just the presented one; (ii) after `refresh(T)` has
succeeded once, presenting T again does the same. -/
theorem refresh_replay_revokes_all (userId : Nat) (tok : String) (st : AuthState) :
    (∀ (fc : Bool) (now : Nat) (row : RefreshRow),
      st.refreshRows.find? (fun r => r.token = tok) = some row →
      row.userId = userId →
      row.revokedAt.isSome ∨ row.expiresAt < now →
      (refreshTokens fc userId tok now st).1 = .error .replayDetected ∧
      ∀ r ∈ (refreshTokens fc userId tok now st).2.refreshRows,
        r.userId = userId → r.revokedAt = some now) ∧
    (∀ (now now2 : Nat) (fc2 : Bool) (tp : TokenPair) (st1 : AuthState),
      refreshTokens false userId tok now st = (.ok tp, st1) →
      mkRefreshValue st.nextId ≠ tok →
      (refreshTokens fc2 userId tok now2 st1).1 = .error .replayDetected ∧
      ∀ r ∈ (refreshTokens fc2 userId tok now2 st1).2.refreshRows,
        r.userId = userId → r.revokedAt = some now2) := by
  constructor
  · intro fc now row hfind hown hsig
    exact replay_branch fc userId tok now st row hfind hown hsig
  · intro now now2 fc2 tp st1 hsucc hfresh
    obtain ⟨row, u, hfind, hown, hrev, _, _, hst1⟩ :=
      refresh_success_inv userId tok now st tp st1 hsucc
    have hfind1 : st1.refreshRows.find? (fun r => r.token = tok) =
        some { row with revokedAt := some now } := by
      rw [hst1]
      rw [List.find?_cons_of_neg _ (by simp [hfresh])]
      rw [find?_token_map _ _ _ (fun r => by by_cases h : r.id = row.id <;> simp [h])]
      rw [hfind]
      simp
    exact replay_branch fc2 userId tok now2 st1 { row with revokedAt := some now }
      hfind1 hown (Or.inl rfl)

theorem refresh_replay_revokes_all_witness :
    (refreshTokens false 1 "tok" 5 exStRevoked).1 = .error .replayDetected ∧
    ∀ r ∈ (refreshTokens false 1 "tok" 5 exStRevoked).2.refreshRows,
      r.userId = 1 → r.revokedAt = some 5 :=
  (refresh_replay_revokes_all 1 "tok" exStRevoked).1 false 5 exRowRevoked
    (by decide) (by decide) (by decide)

/-! ### Password reset tokens (C8) -/

theorem find?_rtoken_map (l : List ResetRow) (tok : String) (f : ResetRow → ResetRow)
    (hf : ∀ r, (f r).token = r.token) :
    (l.map f).find? (fun r => r.token = tok) = (l.find? (fun r => r.token = tok)).map f := by
  rw [List.find?_map]
  have hfun : ((fun r => decide (r.token = tok)) ∘ f) = (fun r => decide (r.token = tok)) := by
    funext r
    simp [Function.comp, hf]
  rw [hfun]

theorem revoke_all_reset_mem (l : List RefreshRow) (uid t : Nat) :
    ∀ r ∈ l.map (fun rt => if rt.userId = uid then { rt with revokedAt := some t } else rt),
      r.userId = uid → r.revokedAt = some t := by
  intro r hr hu
  obtain ⟨a, _, rfl⟩ := List.mem_map.1 hr
  by_cases h : a.userId = uid
  · simp only [if_pos h]
  · rw [if_neg h] at hu
    exact absurd hu h

/-- C8: `forgotPassword` on an active identity leaves exactly one unused
reset token on file for that identity — the fresh one — marking every prior
unused one used; `resetPassword` succeeds on a stored, unused, unexpired
token, revokes every refresh token of the identity, and a second call with
the same token fails with the invalid-token error. -/
theorem password_reset_single_use :
    (∀ (email tokenVal : String) (u : UserR) (now : Nat) (st : AuthState),
      st.users.find? (fun x => x.email = email) = some u →
      u.isActive = true → u.deleted = false →
      (forgotPassword tokenVal email now st).resetRows.filter
          (fun r => r.userId = u.id ∧ r.usedAt = none) =
        [⟨st.nextId, tokenVal, u.id, now + 3600, none⟩]) ∧
    (∀ (tok newPw : String) (now : Nat) (st : AuthState) (r : ResetRow),
      st.resetRows.find? (fun r2 => r2.token = tok) = some r →
      r.usedAt = none → ¬ r.expiresAt < now →
      (resetPassword tok newPw now st).1 = .ok () ∧
      (∀ rt ∈ (resetPassword tok newPw now st).2.refreshRows,
        rt.userId = r.userId → rt.revokedAt = some now) ∧
      (∀ (now2 : Nat) (pw2 : String),
        (resetPassword tok pw2 now2 (resetPassword tok newPw now st).2).1 =
          .error .invalidResetToken)) := by
  constructor
  · intro email tokenVal u now st hu hact hdel
    simp only [forgotPassword, hu]
    rw [if_neg (by simp [hact, hdel])]
    simp only [List.filter_cons]
    rw [if_pos (by simp)]
    congr 1
    rw [List.filter_eq_nil_iff]
    intro a ha
    obtain ⟨b, _, rfl⟩ := List.mem_map.1 ha
    by_cases hb : b.userId = u.id ∧ b.usedAt = none
    · rw [if_pos hb]
      simp
    · rw [if_neg hb]
      simpa using hb
  · intro tok newPw now st r hfind hused hexp
    have hsig : ¬ (r.usedAt.isSome ∨ r.expiresAt < now) := by
      simp [hused, hexp]
    refine ⟨?_, ?_, ?_⟩
    · simp only [resetPassword, hfind]
      rw [if_neg hsig]
    · simp only [resetPassword, hfind]
      rw [if_neg hsig]
      exact revoke_all_reset_mem st.refreshRows r.userId now
    · intro now2 pw2
      set st2 := (resetPassword tok newPw now st).2 with hst2def
      have hst2 : st2.resetRows =
          st.resetRows.map (fun r2 => if r2.id = r.id then { r2 with usedAt := some now } else r2) := by
        rw [hst2def]
        simp only [resetPassword, hfind]
        rw [if_neg hsig]
      have hfind2 : st2.resetRows.find?
          (fun r2 => r2.token = tok) = some { r with usedAt := some now } := by
        rw [hst2]
        rw [find?_rtoken_map _ _ _ (fun r2 => by by_cases h : r2.id = r.id <;> simp [h])]
        rw [hfind]
        simp
      simp only [resetPassword, hfind2]
      rw [if_pos (Or.inl (by simp))]

theorem password_reset_single_use_witness :
    (forgotPassword "new" "a@b.c" 100 forgotSt).resetRows.filter
        (fun r => r.userId = exUser.id ∧ r.usedAt = none) =
      [⟨forgotSt.nextId, "new", exUser.id, 100 + 3600, none⟩] :=
  password_reset_single_use.1 "a@b.c" "new" exUser 100 forgotSt (by decide) (by decide) (by decide)

/-! ### Lockout machinery (C4) -/

theorem lockKey_ne_attemptsKey (email : String) : lockKey email ≠ attemptsKey email := by
  intro h
  have hlen := congrArg String.length h
  rw [lockKey, attemptsKey, String.length_append, String.length_append] at hlen
  have h1 : ("login_locked:" : String).length = 13 := rfl
  have h2 : ("login_attempts:" : String).length = 15 := rfl
  omega

theorem cacheGet_nil (now : Nat) (k : String) : cacheGet now [] k = none := rfl

theorem cacheGet_del_of_mem (now : Nat) (c : Cache) (k : String) (ks : List String)
    (hk : k ∈ ks) : cacheGet now (cacheDel now c ks) k = none := by
  unfold cacheGet cacheDel cachePurge
  rw [Option.map_eq_none']
  rw [List.find?_eq_none]
  intro e he
  simp only [List.mem_filter] at he
  simp only [decide_eq_true_eq]
  intro hkey
  exact (of_decide_eq_true he.1.2) (hkey ▸ hk)

theorem cacheIncr_nil (now : Nat) (k : String) :
    cacheIncr now [] k = (1, [⟨k, 1, none⟩]) := by
  simp [cacheIncr, cachePurge]

theorem cacheIncr_single (now e v : Nat) (k : String) (hlive : now < e) :
    cacheIncr now [⟨k, v, some e⟩] k = (v + 1, [⟨k, v + 1, some e⟩]) := by
  simp [cacheIncr, cachePurge, cacheLive, hlive]

theorem cacheExpire_single (now t v : Nat) (k : String) :
    cacheExpire now [⟨k, v, none⟩] k t = [⟨k, v, some (now + t)⟩] := by
  simp [cacheExpire, cachePurge, cacheLive]

theorem recordFailure_fresh (now : Nat) (ak lk : String) :
    login.recordFailure now [] ak lk = [⟨ak, 1, some (now + LOCKOUT_TTL)⟩] := by
  unfold login.recordFailure
  simp only [cacheIncr_nil]
  rw [if_neg (by decide), if_pos trivial, cacheExpire_single]

theorem recordFailure_bump (now e v : Nat) (ak lk : String) (hlive : now < e)
    (h1 : 1 ≤ v) (h5 : v + 1 < LOCKOUT_THRESHOLD) :
    login.recordFailure now [⟨ak, v, some e⟩] ak lk = [⟨ak, v + 1, some e⟩] := by
  unfold login.recordFailure
  simp only [cacheIncr_single now e v ak hlive]
  rw [if_neg (by omega), if_neg (by omega)]

theorem recordFailure_lock (now e v : Nat) (ak lk : String) (hlive : now < e)
    (hv : v + 1 = LOCKOUT_THRESHOLD) (hne : lk ≠ ak) :
    login.recordFailure now [⟨ak, v, some e⟩] ak lk = [⟨lk, 1, some (now + LOCKOUT_TTL)⟩] := by
  unfold login.recordFailure
  simp only [cacheIncr_single now e v ak hlive]
  rw [if_pos (by omega), if_neg (by simp only [LOCKOUT_THRESHOLD] at hv; omega)]
  simp [cacheSet, cacheDel, cachePurge, cacheLive, hlive, Ne.symm hne, hne, LOCKOUT_TTL]

theorem cacheGet_single_other (now e v : Nat) (k k2 : String) (hne : k2 ≠ k) :
    cacheGet now [⟨k, v, some e⟩] k2 = none := by
  simp only [cacheGet, cachePurge, cacheLive]
  by_cases hlive : now < e
  · simp [cacheLive, hlive, Ne.symm hne]
  · simp [cacheLive, hlive]

theorem cacheGet_single_self (now e v : Nat) (k : String) (hlive : now < e) :
    cacheGet now [⟨k, v, some e⟩] k = some v := by
  simp [cacheGet, cachePurge, cacheLive, hlive]

theorem login_fail_step (dto : LoginDto) (now : Nat) (st : AuthState) (u : UserR)
    (hlock : cacheGet now st.cache (lockKey dto.email) = none)
    (hu : st.users.find? (fun x => x.email = dto.email) = some u)
    (hpw : bcryptCompare dto.password u.passwordHash = false) :
    login dto now st =
      { res := .error .invalidCredentials
        st := { st with cache :=
          login.recordFailure now st.cache (attemptsKey dto.email) (lockKey dto.email) }
        hasherCalls := 1 } := by
  simp [login, hlock, login.loginAfterLockCheck, hu, hpw]

theorem login_success_step (dto : LoginDto) (now : Nat) (st : AuthState) (u : UserR)
    (hlock : cacheGet now st.cache (lockKey dto.email) = none)
    (hu : st.users.find? (fun x => x.email = dto.email) = some u)
    (hpw : bcryptCompare dto.password u.passwordHash = true)
    (hact : u.isActive = true) (hdel : u.deleted = false) (hcomp : u.companyDeleted = false) :
    (login dto now st).res =
      .ok ⟨⟨.access, u.id, now + 15 * 60⟩, mkRefreshValue st.nextId⟩ ∧
    (login dto now st).st.cache =
      cacheDel now st.cache [attemptsKey dto.email, lockKey dto.email] := by
  simp [login, hlock, login.loginAfterLockCheck, hu, hpw, hact, hdel, hcomp, generateTokenPair]

theorem login_locked_helper (dto : LoginDto) (now : Nat) (st : AuthState) (v : Nat)
    (hlock : cacheGet now st.cache (lockKey dto.email) = some v) (hv : v ≠ 0) :
    login dto now st = { res := .error .accountLocked, st := st, hasherCalls := 0 } := by
  simp [login, hlock, hv]

/-- C4: after exactly 5 consecutive failed login attempts for the same
identity inside the 15-minute window (rolling from the first failure), the
lock flag is set and a 6th attempt inside the lock's own 15-minute TTL
fails with the account-locked error even when it supplies the correct
password; and one successful login while not locked clears the failure
counter and the lock flag unconditionally. -/
theorem lockout_after_five_failures
    (email pw wrongPw : String) (u : UserR) (st0 : AuthState) (t1 t2 t3 t4 t5 t6 : Nat)
    (hc : st0.cache = [])
    (hu : st0.users.find? (fun x => x.email = email) = some u)
    (hw : bcryptCompare wrongPw u.passwordHash = false)
    (_h12 : t1 ≤ t2) (h23 : t2 ≤ t3) (h34 : t3 ≤ t4) (h45 : t4 ≤ t5)
    (hwin : t5 < t1 + LOCKOUT_TTL) (hlock6 : t6 < t5 + LOCKOUT_TTL) :
    (let o1 := login ⟨email, wrongPw⟩ t1 st0
     let o2 := login ⟨email, wrongPw⟩ t2 o1.st
     let o3 := login ⟨email, wrongPw⟩ t3 o2.st
     let o4 := login ⟨email, wrongPw⟩ t4 o3.st
     let o5 := login ⟨email, wrongPw⟩ t5 o4.st
     let o6 := login ⟨email, pw⟩ t6 o5.st
     o1.res = .error .invalidCredentials ∧ o2.res = .error .invalidCredentials ∧
     o3.res = .error .invalidCredentials ∧ o4.res = .error .invalidCredentials ∧
     o5.res = .error .invalidCredentials ∧
     cacheGet t6 o5.st.cache (lockKey email) = some 1 ∧
     o6.res = .error .accountLocked ∧ o6.hasherCalls = 0) ∧
    (∀ (st : AuthState) (now : Nat) (u2 : UserR),
      cacheGet now st.cache (lockKey email) = none →
      st.users.find? (fun x => x.email = email) = some u2 →
      bcryptCompare pw u2.passwordHash = true →
      u2.isActive = true → u2.deleted = false → u2.companyDeleted = false →
      (∃ tp, (login ⟨email, pw⟩ now st).res = .ok tp) ∧
      cacheGet now (login ⟨email, pw⟩ now st).st.cache (attemptsKey email) = none ∧
      cacheGet now (login ⟨email, pw⟩ now st).st.cache (lockKey email) = none) := by
  have hAL := lockKey_ne_attemptsKey email
  constructor
  · have hl2 : t2 < t1 + LOCKOUT_TTL := by omega
    have hl3 : t3 < t1 + LOCKOUT_TTL := by omega
    have hl4 : t4 < t1 + LOCKOUT_TTL := by omega
    have hl5 : t5 < t1 + LOCKOUT_TTL := by omega
    have f1 := login_fail_step ⟨email, wrongPw⟩ t1 st0 u (by rw [hc]; rfl) hu hw
    have s1c : (login ⟨email, wrongPw⟩ t1 st0).st.cache =
        [⟨attemptsKey email, 1, some (t1 + LOCKOUT_TTL)⟩] := by
      rw [f1, hc, recordFailure_fresh]
    have s1u : (login ⟨email, wrongPw⟩ t1 st0).st.users = st0.users := by rw [f1]
    have hlk2 : cacheGet t2 (login ⟨email, wrongPw⟩ t1 st0).st.cache (lockKey email) = none := by
      rw [s1c]
      exact cacheGet_single_other t2 (t1 + LOCKOUT_TTL) 1 _ _ hAL
    have hu2 : (login ⟨email, wrongPw⟩ t1 st0).st.users.find? (fun x => x.email = email) =
        some u := by
      rw [s1u]
      exact hu
    have f2 := login_fail_step ⟨email, wrongPw⟩ t2 _ u hlk2 hu2 hw
    have s2c : (login ⟨email, wrongPw⟩ t2 (login ⟨email, wrongPw⟩ t1 st0).st).st.cache =
        [⟨attemptsKey email, 2, some (t1 + LOCKOUT_TTL)⟩] := by
      rw [f2, s1c, recordFailure_bump t2 (t1 + LOCKOUT_TTL) 1 _ _ hl2 (by decide) (by decide)]
    have s2u : (login ⟨email, wrongPw⟩ t2 (login ⟨email, wrongPw⟩ t1 st0).st).st.users =
        st0.users := by
      rw [f2]
      exact s1u
    have hlk3 : cacheGet t3 (login ⟨email, wrongPw⟩ t2
        (login ⟨email, wrongPw⟩ t1 st0).st).st.cache (lockKey email) = none := by
      rw [s2c]
      exact cacheGet_single_other t3 (t1 + LOCKOUT_TTL) 2 _ _ hAL
    have hu3 : (login ⟨email, wrongPw⟩ t2 (login ⟨email, wrongPw⟩ t1 st0).st).st.users.find?
        (fun x => x.email = email) = some u := by
      rw [s2u]
      exact hu
    have f3 := login_fail_step ⟨email, wrongPw⟩ t3 _ u hlk3 hu3 hw
    have s3c : (login ⟨email, wrongPw⟩ t3 (login ⟨email, wrongPw⟩ t2
        (login ⟨email, wrongPw⟩ t1 st0).st).st).st.cache =
        [⟨attemptsKey email, 3, some (t1 + LOCKOUT_TTL)⟩] := by
      rw [f3, s2c, recordFailure_bump t3 (t1 + LOCKOUT_TTL) 2 _ _ hl3 (by decide) (by decide)]
    have s3u : (login ⟨email, wrongPw⟩ t3 (login ⟨email, wrongPw⟩ t2
        (login ⟨email, wrongPw⟩ t1 st0).st).st).st.users = st0.users := by
      rw [f3]
      exact s2u
    have hlk4 : cacheGet t4 (login ⟨email, wrongPw⟩ t3 (login ⟨email, wrongPw⟩ t2
        (login ⟨email, wrongPw⟩ t1 st0).st).st).st.cache (lockKey email) = none := by
      rw [s3c]
      exact cacheGet_single_other t4 (t1 + LOCKOUT_TTL) 3 _ _ hAL
    have hu4 : (login ⟨email, wrongPw⟩ t3 (login ⟨email, wrongPw⟩ t2
        (login ⟨email, wrongPw⟩ t1 st0).st).st).st.users.find?
        (fun x => x.email = email) = some u := by
      rw [s3u]
      exact hu
    have f4 := login_fail_step ⟨email, wrongPw⟩ t4 _ u hlk4 hu4 hw
    have s4c : (login ⟨email, wrongPw⟩ t4 (login ⟨email, wrongPw⟩ t3
        (login ⟨email, wrongPw⟩ t2 (login ⟨email, wrongPw⟩ t1 st0).st).st).st).st.cache =
        [⟨attemptsKey email, 4, some (t1 + LOCKOUT_TTL)⟩] := by
      rw [f4, s3c, recordFailure_bump t4 (t1 + LOCKOUT_TTL) 3 _ _ hl4 (by decide) (by decide)]
    have s4u : (login ⟨email, wrongPw⟩ t4 (login ⟨email, wrongPw⟩ t3
        (login ⟨email, wrongPw⟩ t2 (login ⟨email, wrongPw⟩ t1 st0).st).st).st).st.users =
        st0.users := by
      rw [f4]
      exact s3u
    have hlk5 : cacheGet t5 (login ⟨email, wrongPw⟩ t4 (login ⟨email, wrongPw⟩ t3
        (login ⟨email, wrongPw⟩ t2 (login ⟨email, wrongPw⟩ t1 st0).st).st).st).st.cache
        (lockKey email) = none := by
      rw [s4c]
      exact cacheGet_single_other t5 (t1 + LOCKOUT_TTL) 4 _ _ hAL
    have hu5 : (login ⟨email, wrongPw⟩ t4 (login ⟨email, wrongPw⟩ t3
        (login ⟨email, wrongPw⟩ t2 (login ⟨email, wrongPw⟩ t1 st0).st).st).st).st.users.find?
        (fun x => x.email = email) = some u := by
      rw [s4u]
      exact hu
    have f5 := login_fail_step ⟨email, wrongPw⟩ t5 _ u hlk5 hu5 hw
    have s5c : (login ⟨email, wrongPw⟩ t5 (login ⟨email, wrongPw⟩ t4
        (login ⟨email, wrongPw⟩ t3 (login ⟨email, wrongPw⟩ t2
          (login ⟨email, wrongPw⟩ t1 st0).st).st).st).st).st.cache =
        [⟨lockKey email, 1, some (t5 + LOCKOUT_TTL)⟩] := by
      rw [f5, s4c, recordFailure_lock t5 (t1 + LOCKOUT_TTL) 4 _ _ hl5 (by decide) hAL]
    have hlk6 : cacheGet t6 (login ⟨email, wrongPw⟩ t5 (login ⟨email, wrongPw⟩ t4
        (login ⟨email, wrongPw⟩ t3 (login ⟨email, wrongPw⟩ t2
          (login ⟨email, wrongPw⟩ t1 st0).st).st).st).st).st.cache (lockKey email) = some 1 := by
      rw [s5c]
      exact cacheGet_single_self t6 (t5 + LOCKOUT_TTL) 1 _ hlock6
    have f6 := login_locked_helper ⟨email, pw⟩ t6 _ 1 hlk6 (by decide)
    refine ⟨by rw [f1], by rw [f2], by rw [f3], by rw [f4], by rw [f5], hlk6,
      by rw [f6], by rw [f6]⟩
  · intro st now u2 hlock hu2 hpw hact hdel hcomp
    obtain ⟨hres, hcache⟩ := login_success_step ⟨email, pw⟩ now st u2 hlock hu2 hpw hact hdel hcomp
    refine ⟨⟨_, hres⟩, ?_, ?_⟩
    · rw [hcache]
      exact cacheGet_del_of_mem now st.cache _ _ (by simp)
    · rw [hcache]
      exact cacheGet_del_of_mem now st.cache _ _ (by simp)

theorem lockout_after_five_failures_witness :
    (let o1 := login ⟨"a@b.c", "x"⟩ 1 exSt
     let o2 := login ⟨"a@b.c", "x"⟩ 2 o1.st
     let o3 := login ⟨"a@b.c", "x"⟩ 3 o2.st
     let o4 := login ⟨"a@b.c", "x"⟩ 4 o3.st
     let o5 := login ⟨"a@b.c", "x"⟩ 5 o4.st
     let o6 := login ⟨"a@b.c", "pw"⟩ 6 o5.st
     o6.res = .error .accountLocked ∧ o6.hasherCalls = 0) := by
  have h := lockout_after_five_failures "a@b.c" "pw" "x" exUser exSt 1 2 3 4 5 6
    rfl (by decide) (by decide) (by decide) (by decide) (by decide) (by decide)
    (by decide) (by decide)
  exact ⟨h.1.2.2.2.2.2.2.1, h.1.2.2.2.2.2.2.2⟩

/-! ### Hex, split, keystream and tag lemmas (secret cipher) -/

theorem hexDigitChar_ne_colon (n : Nat) (h : n < 16) : hexDigitChar n ≠ ':' := by
  interval_cases n <;> decide

theorem hexVal_hexDigitChar (n : Nat) (h : n < 16) : hexVal (hexDigitChar n) = some n := by
  interval_cases n <;> decide

theorem toNat_hexDigitChar_lt (n : Nat) (h : n < 16) : (hexDigitChar n).toNat < 256 := by
  interval_cases n <;> decide

theorem mem_hexEnc (bs : List Nat) (hbs : ∀ b ∈ bs, b < 256) :
    ∀ c ∈ hexEnc bs, (hexVal c).isSome ∧ c ≠ ':' ∧ c.toNat < 256 := by
  induction bs with
  | nil => intro c hc; cases hc
  | cons b bs ih =>
    intro c hc
    have hb := hbs b (by simp)
    have hhi : b / 16 < 16 := by omega
    have hlo : b % 16 < 16 := by omega
    simp only [hexEnc, List.mem_cons] at hc
    rcases hc with rfl | rfl | hc
    · exact ⟨by rw [hexVal_hexDigitChar _ hhi]; rfl, hexDigitChar_ne_colon _ hhi,
        toNat_hexDigitChar_lt _ hhi⟩
    · exact ⟨by rw [hexVal_hexDigitChar _ hlo]; rfl, hexDigitChar_ne_colon _ hlo,
        toNat_hexDigitChar_lt _ hlo⟩
    · exact ih (fun x hx => hbs x (by simp [hx])) c hc

theorem colon_not_mem_hexEnc (bs : List Nat) (hbs : ∀ b ∈ bs, b < 256) :
    ':' ∉ hexEnc bs :=
  fun hmem => (mem_hexEnc bs hbs ':' hmem).2.1 rfl

theorem hexDec_hexEnc (bs : List Nat) (hbs : ∀ b ∈ bs, b < 256) :
    hexDec (hexEnc bs) = some bs := by
  induction bs with
  | nil => rfl
  | cons b bs ih =>
    have hb := hbs b (by simp)
    have hhi : b / 16 < 16 := by omega
    have hlo : b % 16 < 16 := by omega
    show hexDec (hexDigitChar (b / 16) :: hexDigitChar (b % 16) :: hexEnc bs) = some (b :: bs)
    rw [hexDec, hexVal_hexDigitChar _ hhi, hexVal_hexDigitChar _ hlo,
      ih (fun x hx => hbs x (by simp [hx]))]
    have hdm : 16 * (b / 16) + b % 16 = b := by omega
    show some ((16 * (b / 16) + b % 16) :: bs) = some (b :: bs)
    rw [hdm]

theorem hexDec_all_isSome : ∀ (L : List Char) (bs : List Nat), hexDec L = some bs →
    ∀ c ∈ L, (hexVal c).isSome
  | [], _, _, c, hc => by cases hc
  | [c0], bs, h, c, hc => by rw [hexDec] at h; cases h
  | c0 :: c1 :: L, bs, h, c, hc => by
    rw [hexDec] at h
    cases h0 : hexVal c0 with
    | none => rw [h0] at h; cases h
    | some v0 =>
      cases h1 : hexVal c1 with
      | none => rw [h0, h1] at h; cases h
      | some v1 =>
        cases h2 : hexDec L with
        | none => rw [h0, h1, h2] at h; cases h
        | some bs' =>
          simp only [List.mem_cons] at hc
          rcases hc with rfl | rfl | hc
          · rw [h0]; rfl
          · rw [h1]; rfl
          · exact hexDec_all_isSome L bs' h2 c hc

theorem hexDec_none_of_none (P S : List Char) (c : Char) (hc : hexVal c = none) :
    hexDec (P ++ c :: S) = none := by
  cases h : hexDec (P ++ c :: S) with
  | none => rfl
  | some bs =>
    have := hexDec_all_isSome _ _ h c (by simp)
    rw [hc] at this
    cases this

theorem hexDec_pointwise : ∀ (L L' : List Char), L.length = L'.length →
    (∀ i, (L.get? i).bind hexVal = (L'.get? i).bind hexVal) →
    hexDec L = hexDec L'
  | [], [], _, _ => rfl
  | [], c :: L', hlen, _ => by cases hlen
  | c :: L, [], hlen, _ => by cases hlen
  | [c0], [c0'], _, _ => by rw [hexDec, hexDec]
  | [c0], c0' :: c1' :: L', hlen, _ => by cases hlen
  | c0 :: c1 :: L, [c0'], hlen, _ => by cases hlen
  | c0 :: c1 :: L, c0' :: c1' :: L', hlen, hp => by
    have h0 := hp 0
    have h1 := hp 1
    simp only [List.get?] at h0 h1
    rw [hexDec, hexDec]
    rw [show hexVal c0 = hexVal c0' from h0, show hexVal c1 = hexVal c1' from h1]
    rw [hexDec_pointwise L L' (by simpa using hlen) (fun i => hp (i + 2))]

theorem hexDec_one_diff : ∀ (P : List Char) (c c' : Char) (v v' : Nat) (S : List Char)
    (bs : List Nat), hexVal c = some v → hexVal c' = some v' →
    hexDec (P ++ c :: S) = some bs →
    ∃ Q b b' R, bs = Q ++ b :: R ∧ hexDec (P ++ c' :: S) = some (Q ++ b' :: R) ∧
      (v = v' ↔ b = b')
  | [], c, c', v, v', S, bs, hc, hc', h => by
    simp only [List.nil_append] at h ⊢
    cases S with
    | nil => rw [hexDec] at h; cases h
    | cons s0 S' =>
      rw [hexDec, hc] at h
      cases h0 : hexVal s0 with
      | none => rw [h0] at h; cases h
      | some w =>
        rw [h0] at h
        cases h2 : hexDec S' with
        | none => rw [h2] at h; cases h
        | some bs' =>
          rw [h2] at h
          injection h with h
          refine ⟨[], 16 * v + w, 16 * v' + w, bs', by rw [← h]; rfl, ?_, by omega⟩
          rw [hexDec, hc', h0, h2]
          rfl
  | [p0], c, c', v, v', S, bs, hc, hc', h => by
    simp only [List.cons_append, List.nil_append] at h ⊢
    rw [hexDec] at h
    cases h0 : hexVal p0 with
    | none => rw [h0] at h; cases h
    | some p =>
      rw [h0, hc] at h
      cases h2 : hexDec S with
      | none => rw [h2] at h; cases h
      | some bs' =>
        rw [h2] at h
        injection h with h
        refine ⟨[], 16 * p + v, 16 * p + v', bs', by rw [← h]; rfl, ?_, by omega⟩
        rw [hexDec, h0, hc', h2]
        rfl
  | p0 :: p1 :: P', c, c', v, v', S, bs, hc, hc', h => by
    simp only [List.cons_append] at h ⊢
    rw [hexDec] at h
    cases h0 : hexVal p0 with
    | none => rw [h0] at h; cases h
    | some w0 =>
      cases h1 : hexVal p1 with
      | none => rw [h0, h1] at h; cases h
      | some w1 =>
        rw [h0, h1] at h
        cases h2 : hexDec (P' ++ c :: S) with
        | none => rw [h2] at h; cases h
        | some bs' =>
          rw [h2] at h
          injection h with h
          obtain ⟨Q, b, b', R, hbs, hdec, hiff⟩ :=
            hexDec_one_diff P' c c' v v' S bs' hc hc' h2
          refine ⟨(16 * w0 + w1) :: Q, b, b', R, ?_, ?_, hiff⟩
          · rw [← h, hbs]; rfl
          · rw [hexDec, h0, h1, hdec]
            rfl

theorem splitColon_no_colon (L : List Char) (h : ':' ∉ L) : splitColon L = [L] := by
  induction L with
  | nil => rfl
  | cons c L ih =>
    rw [splitColon]
    rw [if_neg (by intro hc; exact h (by simp [hc]))]
    rw [ih (fun hm => h (by simp [hm]))]
    rfl

theorem splitColon_append (A rest : List Char) (h : ':' ∉ A) :
    splitColon (A ++ ':' :: rest) = A :: splitColon rest := by
  induction A with
  | nil =>
    rw [List.nil_append, splitColon, if_pos rfl]
  | cons a A ih =>
    rw [List.cons_append, splitColon]
    rw [if_neg (by intro hc; exact h (by simp [hc]))]
    rw [ih (fun hm => h (by simp [hm]))]
    rfl

theorem ctrXor_ctrXor (key ivN : Nat) : ∀ (i : Nat) (bs : List Nat),
    ctrXor key ivN i (ctrXor key ivN i bs) = bs
  | _, [] => rfl
  | i, b :: bs => by
    rw [ctrXor, ctrXor, Nat.xor_cancel_right, ctrXor_ctrXor key ivN (i + 1) bs]

theorem ctrXor_lt (key ivN : Nat) : ∀ (i : Nat) (bs : List Nat), (∀ b ∈ bs, b < 256) →
    ∀ b ∈ ctrXor key ivN i bs, b < 256
  | _, [], _, b, hb => by cases hb
  | i, x :: bs, hbs, b, hb => by
    rw [ctrXor] at hb
    simp only [List.mem_cons] at hb
    rcases hb with rfl | hb
    · have h1 : x < 2 ^ 8 := hbs x (by simp)
      have h2 : ksByte key ivN i < 2 ^ 8 := Nat.mod_lt _ (by omega)
      exact Nat.xor_lt_two_pow h1 h2
    · exact ctrXor_lt key ivN (i + 1) bs (fun y hy => hbs y (by simp [hy])) b hb

theorem natToBytesAux_irrel : ∀ (f1 f2 n : Nat), n ≤ f1 → n ≤ f2 →
    natToBytesAux f1 n = natToBytesAux f2 n
  | 0, 0, _, _, _ => rfl
  | 0, f2 + 1, n, h1, _ => by
    have hn : n = 0 := by omega
    rw [natToBytesAux, natToBytesAux, if_pos hn]
  | f1 + 1, 0, n, _, h2 => by
    have hn : n = 0 := by omega
    rw [natToBytesAux, natToBytesAux, if_pos hn]
  | f1 + 1, f2 + 1, n, h1, h2 => by
    rw [natToBytesAux, natToBytesAux]
    by_cases hn : n = 0
    · rw [if_pos hn, if_pos hn]
    · rw [if_neg hn, if_neg hn]
      have hlt : n / 256 < n := Nat.div_lt_self (Nat.pos_of_ne_zero hn) (by omega)
      rw [natToBytesAux_irrel f1 f2 (n / 256) (by omega) (by omega)]

theorem natToBytes_def (n : Nat) :
    natToBytes n = if n = 0 then [] else n % 256 :: natToBytes (n / 256) := by
  unfold natToBytes
  cases n with
  | zero => rfl
  | succ m =>
    rw [natToBytesAux, if_neg (by omega), if_neg (by omega)]
    have hlt : (m + 1) / 256 < m + 1 := Nat.div_lt_self (by omega) (by omega)
    rw [natToBytesAux_irrel m ((m + 1) / 256) ((m + 1) / 256) (by omega) (by omega)]

theorem natToBytes_lt : ∀ (n : Nat), ∀ b ∈ natToBytes n, b < 256
  | n => by
    rw [natToBytes_def]
    split
    · intro b hb; cases hb
    · intro b hb
      simp only [List.mem_cons] at hb
      rcases hb with rfl | hb
      · exact Nat.mod_lt _ (by omega)
      · have : n / 256 < n := Nat.div_lt_self (Nat.pos_of_ne_zero (by assumption)) (by omega)
        exact natToBytes_lt (n / 256) b hb

theorem natToBytes_inj : ∀ (m n : Nat), natToBytes m = natToBytes n → m = n
  | m, n => by
    intro h
    rw [natToBytes_def m, natToBytes_def n] at h
    by_cases hm : m = 0 <;> by_cases hn : n = 0
    · omega
    · rw [if_pos hm, if_neg hn] at h; cases h
    · rw [if_neg hm, if_pos hn] at h; cases h
    · rw [if_neg hm, if_neg hn] at h
      injection h with h1 h2
      have hlt : m / 256 < m := Nat.div_lt_self (Nat.pos_of_ne_zero hm) (by omega)
      have := natToBytes_inj (m / 256) (n / 256) h2
      omega

theorem wsum_append (l r : List Nat) : ∀ i : Nat,
    wsum i (l ++ r) = wsum i l + wsum (i + l.length) r := by
  induction l with
  | nil => intro i; simp [wsum]
  | cons b l ih =>
    intro i
    rw [List.cons_append, wsum, wsum, ih (i + 1)]
    simp only [List.length_cons]
    ring_nf

theorem wsum_update_ne (P R : List Nat) (i b b' : Nat) (hb : b ≠ b') :
    wsum i (P ++ b :: R) ≠ wsum i (P ++ b' :: R) := by
  rw [wsum_append, wsum_append, wsum, wsum]
  have hw : 0 < i + P.length + 1 := by omega
  intro h
  have h2 : (i + P.length + 1) * (b + 1) = (i + P.length + 1) * (b' + 1) := by omega
  have := Nat.eq_of_mul_eq_mul_left hw h2
  omega

/-! ### Round trip of the secret cipher -/

theorem strMk_data (s : String) : String.mk s.data = s := by
  cases s
  rfl

theorem bytesToStr_strBytes (s : String) : bytesToStr (strBytes s) = s := by
  unfold bytesToStr strBytes
  rw [List.map_map]
  have hco : (Char.ofNat ∘ Char.toNat) = id := funext Char.ofNat_toNat
  rw [hco, List.map_id, strMk_data]

theorem strBytes_lt (s : String) (hs : ∀ ch ∈ s.data, ch.toNat < 256) :
    ∀ b ∈ strBytes s, b < 256 := by
  intro b hb
  obtain ⟨ch, hch, rfl⟩ := List.mem_map.1 hb
  exact hs ch hch

theorem decrypt_encrypt (key : Nat) (iv : List Nat) (text : String)
    (hiv : ∀ b ∈ iv, b < 256) (htext : ∀ ch ∈ text.data, ch.toNat < 256) :
    decryptAesGcm key (encryptAesGcm key iv text) = some text := by
  have hct : ∀ b ∈ ctrXor key (bytesToNat iv) 0 (strBytes text), b < 256 :=
    ctrXor_lt key (bytesToNat iv) 0 _ (strBytes_lt text htext)
  have htag : ∀ b ∈ natToBytes
      (tagNat key iv (ctrXor key (bytesToNat iv) 0 (strBytes text))), b < 256 :=
    natToBytes_lt _
  have hdata : (encryptAesGcm key iv text).data =
      hexEnc iv ++ (':' ::
        (hexEnc (natToBytes (tagNat key iv (ctrXor key (bytesToNat iv) 0 (strBytes text)))) ++
          (':' :: hexEnc (ctrXor key (bytesToNat iv) 0 (strBytes text))))) := rfl
  unfold decryptAesGcm
  rw [hdata, splitColon_append _ _ (colon_not_mem_hexEnc iv hiv),
    splitColon_append _ _ (colon_not_mem_hexEnc _ htag),
    splitColon_no_colon _ (colon_not_mem_hexEnc _ hct)]
  simp only [hexDec_hexEnc iv hiv, hexDec_hexEnc _ htag, hexDec_hexEnc _ hct]
  rw [if_pos trivial, ctrXor_ctrXor, bytesToStr_strBytes]

/-! ### Bit-flip analysis helpers -/

theorem append_cons_cases {α : Type} : ∀ (A l r D : List α) (c x : α),
    l ++ c :: r = A ++ x :: D →
    (∃ A1 A2, A = A1 ++ c :: A2 ∧ l = A1 ∧ r = A2 ++ x :: D) ∨
    (l = A ∧ c = x ∧ r = D) ∨
    (∃ l2, l = A ++ x :: l2 ∧ l2 ++ c :: r = D)
  | [], l, r, D, c, x => by
    intro h
    rw [List.nil_append] at h
    cases l with
    | nil =>
      rw [List.nil_append] at h
      injection h with h1 h2
      exact Or.inr (Or.inl ⟨rfl, h1, h2⟩)
    | cons y l2 =>
      rw [List.cons_append] at h
      injection h with h1 h2
      exact Or.inr (Or.inr ⟨l2, by rw [h1, List.nil_append], h2⟩)
  | a :: A', l, r, D, c, x => by
    intro h
    cases l with
    | nil =>
      rw [List.nil_append, List.cons_append] at h
      injection h with h1 h2
      exact Or.inl ⟨[], A', by rw [h1, List.nil_append], rfl, h2⟩
    | cons y l2 =>
      rw [List.cons_append, List.cons_append] at h
      injection h with h1 h2
      rcases append_cons_cases A' l2 r D c x h2 with
        ⟨A1, A2, hA, hl, hr⟩ | ⟨hl, hc, hr⟩ | ⟨l3, hl, hD⟩
      · exact Or.inl ⟨a :: A1, A2, by rw [hA, List.cons_append], by rw [h1, hl], hr⟩
      · exact Or.inr (Or.inl ⟨by rw [h1, hl], hc, hr⟩)
      · exact Or.inr (Or.inr ⟨l3, by rw [h1, hl, List.cons_append], hD⟩)

theorem not_mem_append_cons {α : Type} (x c : α) (A B : List α)
    (hA : x ∉ A) (hB : x ∉ B) (hc : c ≠ x) : x ∉ A ++ c :: B := by
  intro h
  rcases List.mem_append.1 h with h | h
  · exact hA h
  · rcases List.mem_cons.1 h with h | h
    · exact hc h.symm
    · exact hB h

theorem not_mem_split {α : Type} (x : α) (A B : List α) (c : α)
    (h : x ∉ A ++ c :: B) : x ∉ A ∧ x ∉ B ∧ c ≠ x :=
  ⟨fun hm => h (List.mem_append.2 (Or.inl hm)),
   fun hm => h (by simp [hm]),
   fun hc => h (by rw [← hc]; simp)⟩

theorem cons_middle_assoc {α : Type} (A A2 R : List α) (c : α) :
    A ++ (c :: (A2 ++ R)) = (A ++ (c :: A2)) ++ R := by
  rw [List.append_assoc, List.cons_append]

theorem splitColon_two (A B : List Char) (hA : ':' ∉ A) (hB : ':' ∉ B) :
    splitColon (A ++ (':' :: B)) = [A, B] := by
  rw [splitColon_append A _ hA, splitColon_no_colon B hB]

theorem splitColon_three (A B C : List Char) (hA : ':' ∉ A) (hB : ':' ∉ B) (hC : ':' ∉ C) :
    splitColon (A ++ (':' :: (B ++ (':' :: C)))) = [A, B, C] := by
  rw [splitColon_append A _ hA, splitColon_append B _ hB, splitColon_no_colon C hC]

theorem splitColon_four (A B C D : List Char) (hA : ':' ∉ A) (hB : ':' ∉ B) (hC : ':' ∉ C)
    (hD : ':' ∉ D) :
    splitColon (A ++ (':' :: (B ++ (':' :: (C ++ (':' :: D)))))) = [A, B, C, D] := by
  rw [splitColon_append A _ hA, splitColon_append B _ hB, splitColon_append C _ hC,
    splitColon_no_colon D hD]

theorem decrypt_parts_ne (key : Nat) (s : String) (parts : List (List Char))
    (hsp : splitColon s.data = parts)
    (h3 : ∀ a b c, parts ≠ [a, b, c]) : decryptAesGcm key s = none := by
  unfold decryptAesGcm
  rw [hsp]
  rcases parts with _ | ⟨a, _ | ⟨b, _ | ⟨c, _ | ⟨d, rest⟩⟩⟩⟩
  · rfl
  · rfl
  · rfl
  · exact absurd rfl (h3 a b c)
  · rfl

theorem decrypt_three (key : Nat) (s : String) (P Q R : List Char)
    (hsp : splitColon s.data = [P, Q, R]) :
    decryptAesGcm key s =
      match hexDec P, hexDec Q, hexDec R with
      | some iv, some tag, some ct =>
        if tag = natToBytes (tagNat key iv ct) then
          some (bytesToStr (ctrXor key (bytesToNat iv) 0 ct))
        else none
      | _, _, _ => none := by
  unfold decryptAesGcm
  rw [hsp]

theorem tagNat_ne_iv (key : Nat) (Q R ct : List Nat) (b b' : Nat) (hb : b ≠ b') :
    tagNat key (Q ++ b :: R) ct ≠ tagNat key (Q ++ b' :: R) ct := by
  unfold tagNat
  intro h
  rw [Nat.pair_eq_pair] at h
  obtain ⟨-, h⟩ := h
  rw [Nat.pair_eq_pair] at h
  obtain ⟨-, h⟩ := h
  rw [Nat.pair_eq_pair] at h
  obtain ⟨-, h⟩ := h
  rw [List.append_assoc, List.append_assoc, List.cons_append, List.cons_append] at h
  exact wsum_update_ne Q (R ++ ct) 0 b b' hb h

theorem tagNat_ne_ct (key : Nat) (iv Q R : List Nat) (b b' : Nat) (hb : b ≠ b') :
    tagNat key iv (Q ++ b :: R) ≠ tagNat key iv (Q ++ b' :: R) := by
  unfold tagNat
  intro h
  rw [Nat.pair_eq_pair] at h
  obtain ⟨-, h⟩ := h
  rw [Nat.pair_eq_pair] at h
  obtain ⟨-, h⟩ := h
  rw [Nat.pair_eq_pair] at h
  obtain ⟨-, h⟩ := h
  rw [← List.append_assoc, ← List.append_assoc] at h
  exact wsum_update_ne (iv ++ Q) R 0 b b' hb h

theorem toNat_ofNat_small {n : Nat} (h : n < 55296) : (Char.ofNat n).toNat = n := by
  rw [Char.ofNat, dif_pos (Or.inl h)]
  rfl

theorem toNat_flipChar (c : Char) (k : Nat) (hc : c.toNat < 256) (hk : k < 8) :
    (flipChar c k).toNat = c.toNat ^^^ 2 ^ k := by
  unfold flipChar
  have h2k : 2 ^ k < 256 := by
    calc 2 ^ k < 2 ^ 8 := Nat.pow_lt_pow_right (by omega) hk
    _ = 256 := rfl
  have hx : c.toNat ^^^ 2 ^ k < 256 :=
    Nat.xor_lt_two_pow (n := 8) hc h2k
  exact toNat_ofNat_small (by omega)

theorem flipChar_ne (c : Char) (k : Nat) (hc : c.toNat < 256) (hk : k < 8) :
    flipChar c k ≠ c := by
  intro h
  have h1 := congrArg Char.toNat h
  rw [toNat_flipChar c k hc hk] at h1
  have h2 : c.toNat ^^^ (c.toNat ^^^ 2 ^ k) = c.toNat ^^^ c.toNat := by rw [h1]
  rw [Nat.xor_cancel_left, Nat.xor_self] at h2
  have := Nat.pos_pow_of_pos k (show 0 < 2 by omega)
  omega

/-- Core case analysis for a single flipped character anywhere in a produced
ciphertext `ivHex:tagHex:ctHex`: the call either fails or returns the
original plaintext. -/
theorem decrypt_flip_gen (key : Nat) (iv cb tb : List Nat) (text : String)
    (hiv : ∀ b ∈ iv, b < 256) (hcb : ∀ b ∈ cb, b < 256) (htb : ∀ b ∈ tb, b < 256)
    (hcbE : cb = ctrXor key (bytesToNat iv) 0 (strBytes text))
    (htbE : tb = natToBytes (tagNat key iv cb))
    (l r : List Char) (c : Char) (k : Nat) (hk : k < 8)
    (hsplit : hexEnc iv ++ (':' :: (hexEnc tb ++ (':' :: hexEnc cb))) = l ++ c :: r) :
    decryptAesGcm key (String.mk (l ++ flipChar c k :: r)) = none ∨
    decryptAesGcm key (String.mk (l ++ flipChar c k :: r)) = some text := by
  have hivC : ':' ∉ hexEnc iv := colon_not_mem_hexEnc iv hiv
  have htgC : ':' ∉ hexEnc tb := colon_not_mem_hexEnc tb htb
  have hctC : ':' ∉ hexEnc cb := colon_not_mem_hexEnc cb hcb
  have hmk : (String.mk (l ++ flipChar c k :: r)).data = l ++ flipChar c k :: r := rfl
  rcases append_cons_cases (hexEnc iv) l r _ c ':' hsplit.symm with
    ⟨A1, A2, hA, hl, hr⟩ | ⟨hl, hc, hr⟩ | ⟨l2, hl, hD⟩
  · -- the flipped char sits inside the nonce hex
    obtain ⟨hA1C, hA2C, hcC⟩ := not_mem_split ':' A1 A2 c (hA ▸ hivC)
    have hcmem : c ∈ hexEnc iv := by rw [hA]; simp
    obtain ⟨hcS, -, hclt⟩ := mem_hexEnc iv hiv c hcmem
    obtain ⟨v, hv⟩ := Option.isSome_iff_exists.1 hcS
    by_cases hcol : flipChar c k = ':'
    · left
      refine decrypt_parts_ne key _ [A1, A2, hexEnc tb, hexEnc cb] ?_ (by intro a b c2; simp)
      rw [hmk, hl, hr, hcol]
      exact splitColon_four A1 A2 _ _ hA1C hA2C htgC hctC
    · have hsp : splitColon (String.mk (l ++ flipChar c k :: r)).data =
          [A1 ++ flipChar c k :: A2, hexEnc tb, hexEnc cb] := by
        rw [hmk, hl, hr, cons_middle_assoc A1 A2 _ (flipChar c k)]
        exact splitColon_three _ _ _
          (not_mem_append_cons ':' _ A1 A2 hA1C hA2C hcol) htgC hctC
      cases hv' : hexVal (flipChar c k) with
      | none =>
        left
        rw [decrypt_three key _ _ _ _ hsp, hexDec_none_of_none A1 A2 _ hv']
      | some v' =>
        have hgen : hexDec (A1 ++ c :: A2) = some iv := by
          rw [← hA]
          exact hexDec_hexEnc iv hiv
        obtain ⟨Q, b, b', R, hivEq, hdec', hiff⟩ :=
          hexDec_one_diff A1 c _ v v' A2 iv hv hv' hgen
        by_cases hvv : v = v'
        · right
          rw [decrypt_three key _ _ _ _ hsp]
          simp only [hdec', ← hiff.1 hvv, ← hivEq, hexDec_hexEnc tb htb, hexDec_hexEnc cb hcb]
          rw [if_pos htbE, hcbE, ctrXor_ctrXor, bytesToStr_strBytes]
        · left
          rw [decrypt_three key _ _ _ _ hsp]
          simp only [hdec', hexDec_hexEnc tb htb, hexDec_hexEnc cb hcb]
          rw [if_neg ?_]
          intro h
          rw [htbE] at h
          have h2 := natToBytes_inj _ _ h
          rw [hivEq] at h2
          exact tagNat_ne_iv key Q R cb b b' (fun hbb => hvv (hiff.2 hbb)) h2
  · -- the flipped char is the first separator colon
    left
    subst hc
    have hflip : flipChar ':' k ≠ ':' := flipChar_ne ':' k (by decide) hk
    refine decrypt_parts_ne key _ [hexEnc iv ++ flipChar ':' k :: hexEnc tb, hexEnc cb] ?_
      (by intro a b c2; simp)
    rw [hmk, hl, hr, cons_middle_assoc (hexEnc iv) (hexEnc tb) _ (flipChar ':' k)]
    exact splitColon_two _ _ (not_mem_append_cons ':' _ _ _ hivC htgC hflip) hctC
  · rcases append_cons_cases (hexEnc tb) l2 r _ c ':' hD with
      ⟨B1, B2, hB, hl2, hr⟩ | ⟨hl2, hc, hr⟩ | ⟨l3, hl2, hD2⟩
    · -- the flipped char sits inside the tag hex
      obtain ⟨hB1C, hB2C, hcC⟩ := not_mem_split ':' B1 B2 c (hB ▸ htgC)
      have hcmem : c ∈ hexEnc tb := by rw [hB]; simp
      obtain ⟨hcS, -, hclt⟩ := mem_hexEnc tb htb c hcmem
      obtain ⟨v, hv⟩ := Option.isSome_iff_exists.1 hcS
      by_cases hcol : flipChar c k = ':'
      · left
        refine decrypt_parts_ne key _ [hexEnc iv, B1, B2, hexEnc cb] ?_ (by intro a b c2; simp)
        rw [hmk, hl, hl2, hr, List.append_assoc, List.cons_append, hcol]
        exact splitColon_four _ B1 B2 _ hivC hB1C hB2C hctC
      · have hsp : splitColon (String.mk (l ++ flipChar c k :: r)).data =
            [hexEnc iv, B1 ++ flipChar c k :: B2, hexEnc cb] := by
          rw [hmk, hl, hl2, hr, List.append_assoc, List.cons_append,
            cons_middle_assoc B1 B2 _ (flipChar c k)]
          exact splitColon_three _ _ _ hivC
            (not_mem_append_cons ':' _ B1 B2 hB1C hB2C hcol) hctC
        cases hv' : hexVal (flipChar c k) with
        | none =>
          left
          rw [decrypt_three key _ _ _ _ hsp]
          simp only [hexDec_hexEnc iv hiv, hexDec_none_of_none B1 B2 _ hv']
        | some v' =>
          have hgen : hexDec (B1 ++ c :: B2) = some tb := by
            rw [← hB]
            exact hexDec_hexEnc tb htb
          obtain ⟨Q, b, b', R, htbEq, hdec', hiff⟩ :=
            hexDec_one_diff B1 c _ v v' B2 tb hv hv' hgen
          by_cases hvv : v = v'
          · right
            rw [decrypt_three key _ _ _ _ hsp]
            simp only [hdec', ← hiff.1 hvv, ← htbEq, hexDec_hexEnc iv hiv,
              hexDec_hexEnc cb hcb]
            rw [if_pos htbE, hcbE, ctrXor_ctrXor, bytesToStr_strBytes]
          · left
            rw [decrypt_three key _ _ _ _ hsp]
            simp only [hdec', hexDec_hexEnc iv hiv, hexDec_hexEnc cb hcb]
            rw [if_neg ?_]
            intro h
            rw [← htbE, htbEq] at h
            have h2 := List.append_cancel_left h
            injection h2 with h3 h4
            exact hvv (hiff.2 h3.symm)
    · -- the flipped char is the second separator colon
      left
      subst hc
      have hflip : flipChar ':' k ≠ ':' := flipChar_ne ':' k (by decide) hk
      refine decrypt_parts_ne key _ [hexEnc iv, hexEnc tb ++ flipChar ':' k :: hexEnc cb] ?_
        (by intro a b c2; simp)
      rw [hmk, hl, hl2, hr, List.append_assoc, List.cons_append]
      exact splitColon_two _ _ hivC (not_mem_append_cons ':' _ _ _ htgC hctC hflip)
    · -- the flipped char sits inside the ciphertext hex
      obtain ⟨hC1C, hC2C, hcC⟩ := not_mem_split ':' l3 r c (hD2 ▸ hctC)
      have hcmem : c ∈ hexEnc cb := by rw [← hD2]; simp
      obtain ⟨hcS, -, hclt⟩ := mem_hexEnc cb hcb c hcmem
      obtain ⟨v, hv⟩ := Option.isSome_iff_exists.1 hcS
      by_cases hcol : flipChar c k = ':'
      · left
        refine decrypt_parts_ne key _ [hexEnc iv, hexEnc tb, l3, r] ?_ (by intro a b c2; simp)
        rw [hmk, hl, hl2, List.append_assoc, List.cons_append, List.append_assoc,
          List.cons_append, hcol]
        exact splitColon_four _ _ l3 r hivC htgC hC1C hC2C
      · have hsp : splitColon (String.mk (l ++ flipChar c k :: r)).data =
            [hexEnc iv, hexEnc tb, l3 ++ flipChar c k :: r] := by
          rw [hmk, hl, hl2, List.append_assoc, List.cons_append, List.append_assoc,
            List.cons_append]
          exact splitColon_three _ _ _ hivC htgC
            (not_mem_append_cons ':' _ l3 r hC1C hC2C hcol)
        cases hv' : hexVal (flipChar c k) with
        | none =>
          left
          rw [decrypt_three key _ _ _ _ hsp]
          simp only [hexDec_hexEnc iv hiv, hexDec_hexEnc tb htb,
            hexDec_none_of_none l3 r _ hv']
        | some v' =>
          have hgen : hexDec (l3 ++ c :: r) = some cb := by
            rw [hD2]
            exact hexDec_hexEnc cb hcb
          obtain ⟨Q, b, b', R, hcbEq, hdec', hiff⟩ :=
            hexDec_one_diff l3 c _ v v' r cb hv hv' hgen
          by_cases hvv : v = v'
          · right
            rw [decrypt_three key _ _ _ _ hsp]
            simp only [hdec', ← hiff.1 hvv, ← hcbEq, hexDec_hexEnc iv hiv,
              hexDec_hexEnc tb htb]
            rw [if_pos htbE, hcbE, ctrXor_ctrXor, bytesToStr_strBytes]
          · left
            rw [decrypt_three key _ _ _ _ hsp]
            simp only [hdec', hexDec_hexEnc iv hiv, hexDec_hexEnc tb htb]
            rw [if_neg ?_]
            intro h
            rw [htbE] at h
            have h2 := natToBytes_inj _ _ h
            rw [hcbEq] at h2
            exact tagNat_ne_ct key iv Q R b b' (fun hbb => hvv (hiff.2 hbb)) h2

/-- C7 counterexample: the tamper half of the claim fails as stated.  On a
concrete ciphertext, flipping bit 5 of the hex digit `a` at index 23 yields
a different ciphertext string that decrypts successfully (hex decoding, as
in Node's `Buffer.from(s, "hex")`, accepts both letter cases, so `a` and `A`
decode to the same nibble) — the call does not throw. -/
theorem decrypt_bitflip_cex :
    cexS.data = cexS.data.take 23 ++ 'a' :: cexS.data.drop 24 ∧
    cexFlip = String.mk (cexS.data.take 23 ++ flipChar 'a' 5 :: cexS.data.drop 24) ∧
    cexFlip ≠ cexS ∧
    decryptAesGcm 0 cexFlip = some "A" := by
  decide

/-- C7 (amended): `decrypt (encrypt x) = x` for every plaintext and nonce;
and decrypting any ciphertext obtained by flipping a single bit of a
produced ciphertext either fails or returns the original plaintext
unchanged (a flip that only toggles the letter case of a hex digit decodes
to the same bytes and succeeds) — it never returns a wrong plaintext. -/
theorem decrypt_bitflip_never_wrong :
    (∀ (key : Nat) (iv : List Nat) (text : String),
      (∀ b ∈ iv, b < 256) → (∀ ch ∈ text.data, ch.toNat < 256) →
      decryptAesGcm key (encryptAesGcm key iv text) = some text) ∧
    (∀ (key : Nat) (iv : List Nat) (text : String) (l r : List Char) (c : Char) (k : Nat),
      (∀ b ∈ iv, b < 256) → (∀ ch ∈ text.data, ch.toNat < 256) → k < 8 →
      (encryptAesGcm key iv text).data = l ++ c :: r →
      decryptAesGcm key (String.mk (l ++ flipChar c k :: r)) = none ∨
      decryptAesGcm key (String.mk (l ++ flipChar c k :: r)) = some text) := by
  refine ⟨decrypt_encrypt, ?_⟩
  intro key iv text l r c k hiv htext hk hsplit
  exact decrypt_flip_gen key iv _ _ text hiv
    (ctrXor_lt key (bytesToNat iv) 0 _ (strBytes_lt text htext)) (natToBytes_lt _)
    rfl rfl l r c k hk hsplit

theorem decrypt_bitflip_never_wrong_witness :
    decryptAesGcm 0 (String.mk (cexS.data.take 44 ++ flipChar '0' 0 :: cexS.data.drop 45)) =
      none ∨
    decryptAesGcm 0 (String.mk (cexS.data.take 44 ++ flipChar '0' 0 :: cexS.data.drop 45)) =
      some "A" :=
  decrypt_bitflip_never_wrong.2 0 [0, 0, 0, 0, 0, 0, 0, 0, 0, 0, 0, 10] "A"
    (cexS.data.take 44) (cexS.data.drop 45) '0' 0 (by decide) (by decide) (by decide)
    (by decide)

/-! ### TOTP verification and the two-factor service -/

theorem totpString_length (s : String) (k : Nat) : (totpString s k).length = 6 := rfl

theorem totpVerify_window (seed : String) (step now : Nat)
    (hstep : step = totpStep now ∨ step = totpStep now + 1 ∨ step + 1 = totpStep now) :
    totpVerify (totpString seed step) seed now = true := by
  simp only [totpVerify, decide_eq_true_eq]
  rcases hstep with h | h | h
  · exact Or.inr (Or.inl (by rw [h]))
  · exact Or.inr (Or.inr (by rw [h]))
  · exact Or.inl (by congr 1; omega)

theorem totpVerify_false_of_length (code seed : String) (now : Nat) (hlen : code.length ≠ 6) :
    totpVerify code seed now = false := by
  simp only [totpVerify, decide_eq_false_iff_not]
  rintro (h | h | h) <;>
    exact hlen (by rw [h, totpString_length])

theorem verifyCode_totp_true (encKey : Option Nat) (uid : Nat) (u : UserR) (st : AuthState)
    (stored seed code : String) (now : Nat)
    (hu : st.users.find? (fun x => x.id = uid) = some u)
    (hen : u.twoFactorEnabled = true) (hsec : u.twoFactorSecret = some stored)
    (hdec : decryptSecret encKey stored = some seed)
    (htv : totpVerify code seed now = true) :
    verifyCode encKey uid code now st = .ok (true, st) := by
  simp [verifyCode, hu, hen, hsec, hdec, htv]

/-- C6: for an identity with MFA enabled and a stored seed (decrypting to
`seed`), `verifyCode` accepts the TOTP code of any time step within ±1 of
the current step — the clock-skew window the verifier is invoked with. -/
theorem totp_skew_window_verifies (encKey : Option Nat) (uid : Nat) (u : UserR)
    (st : AuthState) (stored seed : String) (step now : Nat)
    (hu : st.users.find? (fun x => x.id = uid) = some u)
    (hen : u.twoFactorEnabled = true) (hsec : u.twoFactorSecret = some stored)
    (hdec : decryptSecret encKey stored = some seed)
    (hstep : step = totpStep now ∨ step = totpStep now + 1 ∨ step + 1 = totpStep now) :
    verifyCode encKey uid (totpString seed step) now st = .ok (true, st) :=
  verifyCode_totp_true encKey uid u st stored seed _ now hu hen hsec hdec
    (totpVerify_window seed step now hstep)

theorem totp_skew_window_verifies_witness :
    verifyCode none 1 (totpString "SEED" (totpStep 60 + 1)) 60 mfaSt = .ok (true, mfaSt) :=
  totp_skew_window_verifies none 1 mfaUser mfaSt "SEED" "SEED" (totpStep 60 + 1) 60
    (by decide) rfl rfl rfl (Or.inr (Or.inl rfl))

/-- C10: with an encryption key configured, `decryptSecret` returns any
stored value without a colon unchanged (legacy plaintext seed); a seed
stored while no key was configured is stored as plaintext and therefore
still verifies after a key is configured; and only colon-separated values
reach the cipher, which rejects anything not in the three-part
`iv:tag:ciphertext` format. -/
theorem legacy_seed_passthrough :
    (∀ (k : Nat) (s : String), s.data.contains ':' = false →
      decryptSecret (some k) s = some s) ∧
    (∀ (iv : List Nat) (s : String), encryptSecret none iv s = s) ∧
    (∀ (k : Nat) (v : String), v.data.contains ':' = true →
      decryptSecret (some k) v = decryptAesGcm k v) ∧
    (∀ (k : Nat) (v : String) (parts : List (List Char)), splitColon v.data = parts →
      (∀ a b c, parts ≠ [a, b, c]) → decryptAesGcm k v = none) ∧
    (∀ (k uid : Nat) (u : UserR) (st : AuthState) (seed : String) (step now : Nat),
      st.users.find? (fun x => x.id = uid) = some u →
      u.twoFactorEnabled = true → u.twoFactorSecret = some seed →
      seed.data.contains ':' = false →
      (step = totpStep now ∨ step = totpStep now + 1 ∨ step + 1 = totpStep now) →
      verifyCode (some k) uid (totpString seed step) now st = .ok (true, st)) := by
  refine ⟨?_, ?_, ?_, ?_, ?_⟩
  · intro k s h
    have hnm : ':' ∉ s.data := by simpa using h
    simp [decryptSecret, hnm]
  · intro iv s
    rfl
  · intro k v h
    have hm : ':' ∈ v.data := by simpa using h
    simp [decryptSecret, hm]
  · intro k v parts hsp h3
    exact decrypt_parts_ne k v parts hsp h3
  · intro k uid u st seed step now hu hen hsec hcont hstep
    have hnm : ':' ∉ seed.data := by simpa using hcont
    exact verifyCode_totp_true (some k) uid u st seed seed _ now hu hen hsec
      (by simp [decryptSecret, hnm]) (totpVerify_window seed step now hstep)

theorem legacy_seed_passthrough_witness :
    decryptSecret (some 7) "JBSWY3DP" = some "JBSWY3DP" :=
  legacy_seed_passthrough.1 7 "JBSWY3DP" (by decide)

/-- C3: a backup code authenticates at most once — the first `verifyCode`
call that matches it marks its row used, and a second submission of the
same code returns false.  The uniqueness hypothesis is the store's unique
index on `(user_id, code_hash)`. -/
theorem backup_code_single_use (encKey : Option Nat) (uid : Nat) (u : UserR) (st : AuthState)
    (stored secret code : String) (R : BackupRow) (now now2 : Nat)
    (hu : st.users.find? (fun x => x.id = uid) = some u)
    (hen : u.twoFactorEnabled = true)
    (hsec : u.twoFactorSecret = some stored)
    (hdec : decryptSecret encKey stored = some secret)
    (hlen : code.length ≠ 6)
    (hR : R ∈ st.backupRows) (hRuid : R.userId = uid)
    (hRhash : R.codeHash = hashBackupCode uid (normaliseCode code))
    (hRunused : R.usedAt = none)
    (huniq : ∀ r ∈ st.backupRows, r.userId = uid →
      r.codeHash = hashBackupCode uid (normaliseCode code) → r = R) :
    verifyCode encKey uid code now st = .ok (true, markUsed st R.id now) ∧
    verifyCode encKey uid code now2 (markUsed st R.id now) =
      .ok (false, markUsed st R.id now) := by
  have htv : ∀ t, totpVerify code secret t = false :=
    fun t => totpVerify_false_of_length code secret t hlen
  have hfind : st.backupRows.find? (fun r => r.userId = uid ∧
      r.codeHash = hashBackupCode uid (normaliseCode code) ∧ r.usedAt = none) = some R := by
    cases hf : st.backupRows.find? (fun r => r.userId = uid ∧
        r.codeHash = hashBackupCode uid (normaliseCode code) ∧ r.usedAt = none) with
    | none =>
      rw [List.find?_eq_none] at hf
      exact (hf R hR (by simp [hRuid, hRhash, hRunused])).elim
    | some r0 =>
      have hp := List.find?_some hf
      have hmem := List.mem_of_find?_eq_some hf
      simp only [decide_eq_true_eq] at hp
      rw [huniq r0 hmem hp.1 hp.2.1]
  constructor
  · simp only [verifyCode, hu, hen, hsec, hdec, htv now, consumeBackupCode, hfind, markUsed,
      if_true, Bool.false_eq_true, if_false]
  · have hfind2 : (st.backupRows.map
        (fun r2 => if r2.id = R.id then { r2 with usedAt := some now } else r2)).find?
        (fun r => r.userId = uid ∧
          r.codeHash = hashBackupCode uid (normaliseCode code) ∧ r.usedAt = none) = none := by
      rw [List.find?_eq_none]
      intro x hx
      obtain ⟨a, ha, rfl⟩ := List.mem_map.1 hx
      by_cases hid : a.id = R.id
      · simp [hid]
      · rw [if_neg hid]
        simp only [decide_eq_true_eq, not_and]
        intro h1 h2 _
        exact absurd (by rw [huniq a ha h1 h2]) hid
    simp only [verifyCode, hu, hen, hsec, hdec, htv now2, consumeBackupCode, hfind2, markUsed,
      if_true, Bool.false_eq_true, if_false]

theorem backup_code_single_use_witness :
    verifyCode none 1 "AAAA-BBBB-CCCC" 5 backupSt =
      .ok (true, markUsed backupSt exBackupRow.id 5) ∧
    verifyCode none 1 "AAAA-BBBB-CCCC" 9 (markUsed backupSt exBackupRow.id 5) =
      .ok (false, markUsed backupSt exBackupRow.id 5) :=
  backup_code_single_use none 1 mfaUser backupSt "SEED" "SEED" "AAAA-BBBB-CCCC"
    exBackupRow 5 9 (by decide) rfl rfl rfl (by decide) (by decide) rfl rfl rfl (by decide)

/-! ### MFA-gated login flow (C1) -/

theorem verifyCode_users (encKey : Option Nat) (uid : Nat) (code : String) (now : Nat)
    (st : AuthState) (b : Bool) (st1 : AuthState)
    (h : verifyCode encKey uid code now st = .ok (b, st1)) : st1.users = st.users := by
  cases hfu : st.users.find? (fun x => x.id = uid) with
  | none =>
    simp only [verifyCode, hfu] at h
    injection h with h
    injection h with hb hst
    rw [← hst]
  | some u =>
    simp only [verifyCode, hfu] at h
    by_cases hen : u.twoFactorEnabled = true
    · rw [if_pos hen] at h
      cases hsec : u.twoFactorSecret with
      | none =>
        simp only [hsec] at h
        injection h with h
        injection h with hb hst
        rw [← hst]
      | some stored =>
        simp only [hsec] at h
        cases hdec : decryptSecret encKey stored with
        | none =>
          simp only [hdec] at h
          exact (Except.noConfusion h)
        | some secret =>
          simp only [hdec] at h
          by_cases htv : totpVerify code secret now = true
          · rw [if_pos htv] at h
            injection h with h
            injection h with hb hst
            rw [← hst]
          · rw [if_neg htv] at h
            cases hcf : st.backupRows.find? (fun r => r.userId = uid ∧
                r.codeHash = hashBackupCode uid (normaliseCode code) ∧ r.usedAt = none) with
            | none =>
              simp only [consumeBackupCode, hcf] at h
              injection h with h
              injection h with hb hst
              rw [← hst]
            | some r0 =>
              simp only [consumeBackupCode, hcf] at h
              injection h with h
              injection h with hb hst
              rw [← hst]
    · rw [if_neg hen] at h
      injection h with h
      injection h with hb hst
      rw [← hst]

/-- C1: on an identity with MFA enabled, a login with the correct password
returns a short-lived challenge token with the `mfa` type marker and
persists no refresh token; the 2FA challenge endpoint rejects an invalid
code and issues (and persists) the real token pair only after `verifyCode`
accepts the submitted code. -/
theorem mfa_gated_login_flow :
    (∀ (dto : LoginDto) (now : Nat) (st : AuthState) (u : UserR),
      cacheGet now st.cache (lockKey dto.email) = none →
      st.users.find? (fun x => x.email = dto.email) = some u →
      bcryptCompare dto.password u.passwordHash = true →
      u.isActive = true → u.deleted = false → u.companyDeleted = false →
      u.twoFactorEnabled = true →
      (loginSpec dto now st).res = .ok (.mfaChallenge ⟨.mfa, u.id, now + 5 * 60⟩) ∧
      (loginSpec dto now st).st.refreshRows = st.refreshRows) ∧
    (∀ (encKey : Option Nat) (uid now : Nat) (code : String) (st st1 : AuthState),
      verifyCode encKey uid code now st = .ok (false, st1) →
      completeMfaChallenge encKey uid code now st = .error .invalidCode) ∧
    (∀ (encKey : Option Nat) (uid now : Nat) (code : String) (st st1 : AuthState) (u : UserR),
      st.users.find? (fun x => x.id = uid) = some u →
      verifyCode encKey uid code now st = .ok (true, st1) →
      completeMfaChallenge encKey uid code now st =
        .ok (⟨⟨.access, u.id, now + 15 * 60⟩, mkRefreshValue st1.nextId⟩,
          { st1 with refreshRows := ⟨st1.nextId, mkRefreshValue st1.nextId, u.id,
              now + 7 * 86400, none⟩ :: st1.refreshRows, nextId := st1.nextId + 1 })) := by
  refine ⟨?_, ?_, ?_⟩
  · intro dto now st u hlock hu hpw hact hdel hcomp hmfa
    constructor <;>
      simp [loginSpec, hlock, loginSpec.loginSpecAfterLockCheck, hu, hpw, hact, hdel,
        hcomp, hmfa]
  · intro encKey uid now code st st1 hv
    simp [completeMfaChallenge, hv]
  · intro encKey uid now code st st1 u hu hv
    have husers := verifyCode_users encKey uid code now st true st1 hv
    have hfu1 : st1.users.find? (fun x => x.id = uid) = some u := by rw [husers]; exact hu
    simp [completeMfaChallenge, hv, createSessionForUser, hfu1, generateTokenPair]

theorem mfa_gated_login_flow_witness :
    (loginSpec ⟨"a@b.c", "pw"⟩ 50 mfaSt).res =
      .ok (.mfaChallenge ⟨.mfa, mfaUser.id, 50 + 5 * 60⟩) ∧
    (loginSpec ⟨"a@b.c", "pw"⟩ 50 mfaSt).st.refreshRows = mfaSt.refreshRows :=
  mfa_gated_login_flow.1 ⟨"a@b.c", "pw"⟩ 50 mfaSt mfaUser rfl (by decide) (by decide)
    rfl rfl rfl rfl

end SaaS
